import Mathlib

/-!
Verification development for the core simulation engine of a multi-agent
decision-theoretic simulator (source: world.py and
teamwork/policy/LookaheadPolicy.py).

Machine floats are modelled as rationals.  Python dictionaries are modelled
as insertion-ordered association lists (unique keys).  Python exceptions are
modelled with an explicit error monad (Except PyErr).  The helper modules
psychsim.pwl, psychsim.action, psychsim.probability, psychsim.graph and
psychsim.agent are not part of the source tree; the data structures they
provide (keyed vectors and matrices, probability distributions,
piecewise-linear trees, action sets, the dependency evaluation order and
the agent interface) are modelled from the specification (sections 3, 4.2,
4.4 and 6) and marked as such below.  All functions taken from world.py and
LookaheadPolicy.py are transcribed from the source.
-/

set_option linter.unusedVariables false

/-- Keys of the factored state are plain strings. -/
abbrev Key := String

/-- Modelled from the spec: the reserved bias key, always 1.0 (section 3). -/
def CONSTANT : Key := "__CONSTANT__"

/-- Modelled from the spec: the always-defined termination key (section 3). -/
def TERMINATED : Key := "__TERMINATED__"

/-- Suffix test over character lists (kernel-friendly replacement for
String.endsWith). -/
def listEndsWith (l suf : List Char) : Bool :=
  (l.reverse.take suf.length) == suf.reverse

/-- Strip a suffix of the given length from a string. -/
def strDropRight (s : String) (n : Nat) : String :=
  String.mk (s.data.take (s.data.length - n))

/-- Modelled from the spec: decoration marking the turn counter of an agent
(section 3: keys may be decorated to mean "turn counter of agent A"). -/
def TURNTAG : String := " __TURN__"

def turnKey (name : String) : Key := name ++ TURNTAG

def isTurnKey (key : Key) : Bool := listEndsWith key.data TURNTAG.data

def turn2name (key : Key) : String := strDropRight key TURNTAG.length

/-- Modelled from the spec: decoration marking the model slot of an agent
(section 3). -/
def MODELTAG : String := " __MODEL__"

def modelKey (name : String) : Key := name ++ MODELTAG

def isModelKey (key : Key) : Bool := listEndsWith key.data MODELTAG.data

def model2name (key : Key) : String := strDropRight key MODELTAG.length

/-- Modelled from the spec: key under which a free action parameter is
substituted into a parameterized dynamics tree (section 4.3). -/
def actionKey (feature : String) : Key := feature ++ " __ACTION__"

/-- Python exceptions that the transcribed code can raise. -/
inductive PyErr where
  | keyError (msg : String)
  | typeError (msg : String)
  | nameError (msg : String)
  | assertionError (msg : String)
  | indexError (msg : String)
  | runtimeError (msg : String)
  /-- NotImplementedError carrying the list of stochastic agents that the
  message interpolates. -/
  | notImplementedError (stochastic : List String)
deriving DecidableEq, Repr

/-- Python int() truncation toward zero, on rationals. -/
def pyInt (q : ℚ) : ℤ := if 0 ≤ q then ⌊q⌋ else -⌊-q⌋

/-- Python list indexing with negative-index wrap-around. -/
def pyIndex (l : List α) (i : ℤ) : Except PyErr α :=
  let j := if i < 0 then i + l.length else i
  if h : 0 ≤ j ∧ j.toNat < l.length then pure (l.get ⟨j.toNat, h.2⟩)
  else Except.error (.indexError "list index out of range")

/-- Modelled from the spec: a keyed vector is a mapping Key to Float
(section 3), realized as an association list with unique keys. -/
abbrev KeyedVector := List (Key × ℚ)

/-- Dictionary lookup returning an optional value. -/
def vget? : KeyedVector → Key → Option ℚ
  | [], _ => none
  | e :: rest, k => if e.fst == k then some e.snd else vget? rest k

/-- Lookup with default 0 (used where the source guarantees presence). -/
def vgetD (x : KeyedVector) (k : Key) : ℚ :=
  (vget? x k).getD 0

def vhas (x : KeyedVector) (k : Key) : Bool := (vget? x k).isSome

/-- Dictionary assignment: replace in place, or append a new entry. -/
def vset : KeyedVector → Key → ℚ → KeyedVector
  | [], k, v => [(k, v)]
  | (k0, v0) :: rest, k, v =>
    if k0 == k then (k0, v) :: rest else (k0, v0) :: vset rest k v

/-- Python dict.update: overlay all entries of the second map onto the
first. -/
def vupdate (x y : KeyedVector) : KeyedVector :=
  y.foldl (fun acc e => vset acc e.fst e.snd) x

/-- Table lookup in an association list with string keys. -/
def tget? : List (String × α) → String → Option α
  | [], _ => none
  | e :: rest, k => if e.fst == k then some e.snd else tget? rest k

/-- Table assignment: replace in place or append. -/
def tset : List (String × α) → String → α → List (String × α)
  | [], k, v => [(k, v)]
  | (k0, v0) :: rest, k, v =>
    if k0 == k then (k0, v) :: rest else (k0, v0) :: tset rest k v

/-- Modelled from the spec: probability distribution with mass-combining
insertion (section 3, psychsim.probability is not in the source tree). -/
abbrev PDist (α : Type) := List (α × ℚ)

/-- Distribution.addProb: combine mass with an existing equal element, else
append. -/
def PDist.addProb [BEq α] : PDist α → α → ℚ → PDist α
  | [], a, p => [(a, p)]
  | (b, q) :: rest, a, p =>
    if a == b then (b, q + p) :: rest else (b, q) :: PDist.addProb rest a p

def PDist.domain (d : PDist α) : List α := d.map Prod.fst

def PDist.total (d : PDist α) : ℚ := d.foldl (fun s e => s + e.snd) 0

/-- Scale every mass by a factor. -/
def scaleDist (p : ℚ) (d : PDist α) : PDist α :=
  d.map (fun e => (e.fst, p * e.snd))

/-- Modelled from the spec: silent renormalization (section 7); a
zero-mass distribution is left unchanged. -/
def PDist.normalize (d : PDist α) : PDist α :=
  if PDist.total d == 0 then d else scaleDist (1 / PDist.total d) d

/-- Marginal of a vector distribution at one key; accessing a vector that
lacks the key raises KeyError, as in the source. -/
def marginalQ (d : PDist KeyedVector) (key : Key) : Except PyErr (PDist ℚ) :=
  d.foldlM (fun acc e =>
    match vget? e.fst key with
    | some q => pure (PDist.addProb acc q e.snd)
    | none => Except.error (.keyError key)) []

/-- Modelled from the spec: VectorDistribution.join - set one key to each
value of a distribution, multiplying masses (section 6). -/
def distJoin (d : PDist KeyedVector) (key : Key) (vals : PDist ℚ) : PDist KeyedVector :=
  d.foldl (fun acc e =>
    vals.foldl (fun acc2 ve => PDist.addProb acc2 (vset e.fst key ve.fst) (e.snd * ve.snd)) acc) []

/-- Modelled from the spec: a keyed matrix maps each output key to an input
row; the new value of the output key is the dot product of the row with the
current vector (section 3). -/
abbrev KeyedMatrix := List (Key × KeyedVector)

def rowDot (row : KeyedVector) (x : KeyedVector) : ℚ :=
  row.foldl (fun s e => s + e.snd * vgetD x e.fst) 0

def mulVec (m : KeyedMatrix) (x : KeyedVector) : KeyedVector :=
  m.map (fun e => (e.fst, rowDot e.snd x))

def mhas : KeyedMatrix → Key → Bool
  | [], _ => false
  | e :: rest, k => if e.fst == k then true else mhas rest k

/-- One row assignment of a keyed matrix (dict assignment semantics). -/
def mset : KeyedMatrix → Key → KeyedVector → KeyedMatrix
  | [], k, row => [(k, row)]
  | e :: rest, k, row =>
    if e.fst == k then (e.fst, row) :: rest else e :: mset rest k row

/-- KeyedMatrix.update: overlay the rows of the second matrix. -/
def matUpdate (m other : KeyedMatrix) : KeyedMatrix :=
  other.foldl (fun acc e => mset acc e.fst e.snd) m

abbrev MatrixDistribution := PDist KeyedMatrix

/-- Modelled from the spec: composing matrix distributions takes the cross
product, overlaying each pair of matrices and multiplying masses
(section 4.9 step 4). -/
def MatrixDistribution.updateD (d other : MatrixDistribution) : MatrixDistribution :=
  d.foldl (fun acc e =>
    other.foldl (fun acc2 oe => PDist.addProb acc2 (matUpdate e.fst oe.fst) (e.snd * oe.snd)) acc) []

/-- Modelled from the spec: values inside authored trees may be numeric or
symbolic; desymbolize replaces symbol names with float codes (section 4.2). -/
inductive SVal where
  | num (q : ℚ)
  | sym (s : String)
deriving DecidableEq, Repr

/-- A possibly-symbolic row of a keyed matrix. -/
abbrev SRow := List (Key × SVal)

/-- A possibly-symbolic keyed matrix, as stored in piecewise-linear trees. -/
abbrev SMatrix := List (Key × SRow)

/-- Evaluate a symbolic value; a leftover symbol cannot take part in float
arithmetic (stored trees are numeric after desymbolize, section 4.2). -/
def svalEval : SVal → Except PyErr ℚ
  | .num q => pure q
  | .sym s => Except.error (.typeError ("symbolic value " ++ s ++ " in numeric context"))

def srowEval : SRow → Except PyErr KeyedVector
  | [] => pure []
  | e :: rest => do
      let q ← svalEval e.snd
      let r ← srowEval rest
      pure ((e.fst, q) :: r)

def smatrixEval : SMatrix → Except PyErr KeyedMatrix
  | [] => pure []
  | e :: rest => do
      let row ← srowEval e.snd
      let r ← smatrixEval rest
      pure ((e.fst, row) :: r)

/-- Evaluate the matrices of a stochastic leaf. -/
def stochEval : List (SMatrix × ℚ) → Except PyErr MatrixDistribution
  | [] => pure []
  | e :: rest => do
      let m ← smatrixEval e.fst
      let r ← stochEval rest
      pure ((m, e.snd) :: r)

/-- Modelled from the spec: a piecewise-linear tree is either a leaf (a
keyed matrix, a None leaf meaning null effect, or a distribution of
matrices) or a linear-threshold branch whose true child is taken when
w dot x is at least c (section 4.2). -/
inductive PLTree where
  | leaf (m : Option SMatrix)
  | stochLeaf (d : List (SMatrix × ℚ))
  | branch (w : SRow) (c : SVal) (tru fls : PLTree)
deriving DecidableEq, Repr

/-- Result of descending a tree at a vector. -/
inductive TreeVal where
  | nullLeaf
  | mat (m : KeyedMatrix)
  | matDist (d : MatrixDistribution)
deriving DecidableEq, Repr

/-- Descend a tree at a concrete vector (tree[vector] in the source). -/
def PLTree.apply (x : KeyedVector) : PLTree → Except PyErr TreeVal
  | .leaf none => pure .nullLeaf
  | .leaf (some m) => do pure (.mat (← smatrixEval m))
  | .stochLeaf d => do
      let d2 ← stochEval d
      pure (.matDist d2)
  | .branch w c tru fls => do
      let wq ← srowEval w
      let cq ← svalEval c
      if cq ≤ rowDot wq x then PLTree.apply x tru else PLTree.apply x fls

def svalDesym (table : List (String × ℚ)) : SVal → SVal
  | .num q => .num q
  | .sym s => match tget? table s with
      | some q => .num q
      | none => .sym s

def srowDesym (table : List (String × ℚ)) (r : SRow) : SRow :=
  r.map (fun e => (e.fst, svalDesym table e.snd))

def smatrixDesym (table : List (String × ℚ)) (m : SMatrix) : SMatrix :=
  m.map (fun e => (e.fst, srowDesym table e.snd))

/-- Modelled from the spec: desymbolize substitutes symbol names with float
codes throughout leaves and thresholds (section 4.2). -/
def PLTree.desymbolize (table : List (String × ℚ)) : PLTree → PLTree
  | .leaf none => .leaf none
  | .leaf (some m) => .leaf (some (smatrixDesym table m))
  | .stochLeaf d => .stochLeaf (d.map (fun e => (smatrixDesym table e.fst, e.snd)))
  | .branch w c tru fls =>
      .branch (srowDesym table w) (svalDesym table c)
        (PLTree.desymbolize table tru) (PLTree.desymbolize table fls)

/-- Modelled from the spec: incrementMatrix key delta - new value of key is
old value plus delta (affine via the CONSTANT column). -/
def incrementMatrix (key : Key) (delta : ℚ) : SMatrix :=
  [(key, [(key, .num 1), (CONSTANT, .num delta)])]

/-- Modelled from the spec: setToConstantMatrix key c - new value of key is
the constant c. -/
def setToConstantMatrix (key : Key) (c : ℚ) : SMatrix :=
  [(key, [(CONSTANT, .num c)])]

/-- Modelled from the spec: makeTree of an if/then/else over the threshold
row testing one key against a constant (thresholdRow key theta). -/
def makeIfThresholdTree (key : Key) (theta : ℚ) (tru fls : PLTree) : PLTree :=
  .branch [(key, .num 1)] (.num theta) tru fls

/-- Modelled from the spec: an atomic action is a record with required field
subject plus free parameters (section 3; psychsim.action is not in the
source tree).  The verb names the action; params are the extra parameters
beyond the special fields. -/
structure PAction where
  subject : String
  verb : String
  params : List (String × ℚ)
deriving DecidableEq, Repr

/-- Action.root: strip the free parameters, keeping the special fields. -/
def PAction.root (a : PAction) : PAction := { a with params := [] }

/-- Python len(atom) greater than len(atom.special) tests for the presence
of free parameters beyond the special fields. -/
def PAction.hasExtra (a : PAction) : Bool := !a.params.isEmpty

/-- Modelled from the spec: an ActionSet is an unordered collection of
atomic actions performed simultaneously (section 3), realized as a list
compared up to membership. -/
abbrev ActionSet := List PAction

/-- Set equality of action sets (frozenset equality). -/
def ActionSet.seteq (a b : ActionSet) : Bool :=
  a.all (fun x => b.contains x) && b.all (fun x => a.contains x)

/-- Values stored in a per-agent actions table. -/
inductive PyActVal where
  | atom (a : PAction)
  | set (s : ActionSet)
  | dist (d : PDist ActionSet)
deriving DecidableEq, Repr

/-- The forms the running actions object can take inside a step: per-agent
table, joint ActionSet, or plain list of atoms. -/
inductive ActionsState where
  | table (t : List (String × PyActVal))
  | set (s : ActionSet)
  | list (l : List PAction)
deriving DecidableEq, Repr

/-- Argument forms accepted by step and stepFromState. -/
inductive ActionsArg where
  | none
  | atom (a : PAction)
  | set (s : ActionSet)
  | list (l : List PAction)
  | table (t : List (String × PyActVal))
deriving DecidableEq, Repr

/-- Modelled from the spec: ActionSet of a per-agent table collects the
atoms of every entry (glossary: the multiset of simultaneous atomic actions
across all actors). -/
def flattenTable (t : List (String × PyActVal)) : ActionSet :=
  t.foldl (fun acc e =>
    match e.snd with
    | .set s => acc ++ s
    | .atom a => acc ++ [a]
    | .dist _ => acc) []

/-- Domain-level values that can be stored in or decoded from the state
(bool, int, float, enumerated symbol, action set). -/
inductive PyValue where
  | bool (b : Bool)
  | int (n : ℤ)
  | num (q : ℚ)
  | str (s : String)
  | actSet (a : ActionSet)
deriving DecidableEq, Repr

/-- Python truthiness of a domain value. -/
def pyTruthy : PyValue → Bool
  | .bool b => b
  | .int n => n != 0
  | .num q => q != 0
  | .str s => s != ""
  | .actSet a => !a.isEmpty

/-- Numeric reading of a value where the source performs float arithmetic
or comparison; non-numeric values are rejected. -/
def asNum : PyValue → Except PyErr ℚ
  | .bool b => pure (if b then 1 else 0)
  | .int n => pure (n : ℚ)
  | .num q => pure q
  | .str s => Except.error (.typeError ("string " ++ s ++ " in numeric context"))
  | .actSet _ => Except.error (.typeError "action set in numeric context")

/-- Variable domains, as accepted by defineVariable. -/
inductive VarDomain where
  | bool
  | int
  | float
  | list (elements : List PyValue)
  | set (elements : List PyValue)
  | actionSet (elements : List PyValue)
deriving DecidableEq, Repr

/-- Variable descriptor: the fields of self.variables[key] that the
transcribed functions consult. -/
structure VarDef where
  domain : VarDomain
  combinator : Option String
deriving DecidableEq, Repr

/-- A model designator: the Python value True (the real agent) or a model
name. -/
inductive ModelRef where
  | tru
  | name (s : String)
deriving DecidableEq, Repr

/-- The attributes of an agent model consulted by the belief-update block of
effect. -/
structure AgentModel where
  hasBeliefs : Bool
  beliefsTrue : Bool
  static : Bool
deriving DecidableEq, Repr

/-- A decision returned by Agent.decide; only the action field is consulted
by the stepper. -/
structure Decision where
  action : PyActVal
deriving DecidableEq, Repr

/-- Modelled from the spec: the agent interface consumed by the stepper
(section 6; psychsim.agent is not in the source tree).  decide, observe,
stateEstimator and index2model are external collaborators, modelled as
total functions. -/
structure PAgent where
  models : List (ModelRef × AgentModel)
  index2model : ℚ → String
  decide : KeyedVector → Option ℤ → List (String × PyActVal) → ModelRef → Option String → Decision
  observe : KeyedVector → ActionsState → PDist PyValue
  stateEstimator : KeyedVector → KeyedVector → PyValue → ModelRef → Option ℚ

/-- Pattern under which a dynamics tree is registered: the wildcard True or
an exact ActionSet. -/
inductive DynPat where
  | wild
  | pat (s : ActionSet)

def dynPatEq : DynPat → DynPat → Bool
  | .wild, .wild => true
  | .pat a, .pat b => ActionSet.seteq a b
  | _, _ => false

def dynLookupPat : List (DynPat × PLTree) → DynPat → Option PLTree
  | [], _ => none
  | e :: rest, p => if dynPatEq e.fst p then some e.snd else dynLookupPat rest p

/-- Items appended to the effect log of one step. -/
inductive EffectItem where
  | mats (d : MatrixDistribution)
  | mat (m : KeyedMatrix)
deriving DecidableEq, Repr

/-- The world object: the fields of World consulted by the transcribed
methods.  evaluation models dependency.getEvaluation() (psychsim.graph is
not in the source tree; spec section 4.4: a topological order of key sets).
sample models the injected random source used by select (spec section 5). -/
structure PWorld where
  agents : List (String × PAgent)
  variableDefs : List (Key × VarDef)
  symbols : List (PyValue × ℕ)
  symbolList : List PyValue
  dynamics : List (Key × List (DynPat × PLTree))
  evaluation : List (List Key)
  maxTurn : Option ℚ
  memory : Bool
  sample : PDist KeyedVector → KeyedVector

/-- Lookup of self.variables[key]; missing keys raise KeyError. -/
def PWorld.getVar (w : PWorld) (key : Key) : Except PyErr VarDef :=
  match tget? w.variableDefs key with
  | some v => pure v
  | none => Except.error (.keyError key)

/-- Lookup of self.agents[name]; missing names raise KeyError. -/
def PWorld.getAgent (w : PWorld) (name : String) : Except PyErr PAgent :=
  match tget? w.agents name with
  | some a => pure a
  | none => Except.error (.keyError name)

def mrefLookup : List (ModelRef × AgentModel) → ModelRef → Option AgentModel
  | [], _ => none
  | e :: rest, m => if e.fst == m then some e.snd else mrefLookup rest m

/-- Lookup of agent.models[model]; missing models raise KeyError. -/
def modelsLookup (ag : PAgent) (m : ModelRef) : Except PyErr AgentModel :=
  match mrefLookup ag.models m with
  | some md => pure md
  | none => Except.error (.keyError "model")

def symAssoc : List (PyValue × ℕ) → PyValue → Option ℕ
  | [], _ => none
  | e :: rest, v => if e.fst == v then some e.snd else symAssoc rest v

/-- Lookup of the symbol table self.symbols. -/
def symLookup (w : PWorld) (v : PyValue) : Option ℕ :=
  symAssoc w.symbols v

/-- Transcribed from world.py value2float: encode a domain value into the
float stored in a keyed vector (the Distribution case of the source is
value2floatDist below). -/
def PWorld.value2float (w : PWorld) (key : Key) (value : PyValue) : Except PyErr PyValue := do
  let vd ← w.getVar key
  match vd.domain with
  | .bool => pure (.num (if pyTruthy value then 1 else 0))
  | .list _ =>
      match symLookup w value with
      | some i => pure (.num i)
      | none => Except.error (.keyError "symbol")
  | .set _ =>
      match symLookup w value with
      | some i => pure (.num i)
      | none => Except.error (.keyError "symbol")
  | .actionSet _ =>
      match symLookup w value with
      | some i => pure (.num i)
      | none => Except.error (.keyError "symbol")
  | _ => pure value

/-- Transcribed from world.py float2value: decode a stored float back into
a domain value.  For model keys with float domain the source resolves the
float through the owning agent index2model. -/
def PWorld.float2value (w : PWorld) (key : Key) (flt : PyValue) : Except PyErr PyValue := do
  let vd ← w.getVar key
  match vd.domain with
  | .bool => do
      let q ← asNum flt
      if 1 / 2 < q then pure (.bool true) else pure (.bool false)
  | .list _ => do
      let q ← asNum flt
      let v ← pyIndex w.symbolList (pyInt (q + 1 / 10))
      pure v
  | .set _ => do
      let q ← asNum flt
      let v ← pyIndex w.symbolList (pyInt (q + 1 / 10))
      pure v
  | .actionSet _ => do
      let q ← asNum flt
      let v ← pyIndex w.symbolList (pyInt (q + 1 / 10))
      pure v
  | .int => do
      let q ← asNum flt
      pure (.int (pyInt q))
  | .float =>
      if isModelKey key then do
        let ag ← w.getAgent (model2name key)
        let q ← asNum flt
        pure (.str (ag.index2model q))
      else pure flt

/-- Transcribed from world.py float2value (Distribution input): decode each
element, combining the masses of equal decoded values. -/
def PWorld.float2valueDist (w : PWorld) (key : Key) (d : PDist ℚ) : Except PyErr (PDist PyValue) :=
  d.foldlM (fun acc e => do
    let v ← w.float2value key (.num e.fst)
    pure (PDist.addProb acc v e.snd)) []

/-- Encode then decode one value: the round-trip of the symbol table. -/
def PWorld.roundTrip (w : PWorld) (key : Key) (v : PyValue) : Except PyErr PyValue := do
  let f ← w.value2float key v
  w.float2value key f

/-- Modelled from the spec: the factored state - a mapping from substate
label to vector distribution plus a key-to-substate index (section 3;
psychsim.pwl is not in the source tree). -/
structure VDSet where
  keyMap : List (Key × ℕ)
  distributions : List (ℕ × PDist KeyedVector)

/-- Modelled from the spec: marginal of a distribution set at one key; a
missing key or substate raises KeyError. -/
def VDSet.marginal (s : VDSet) (key : Key) : Except PyErr (PDist ℚ) := do
  match tget? s.keyMap key with
  | none => Except.error (.keyError key)
  | some sub =>
      match (s.distributions.find? (fun e => e.fst == sub)).map Prod.snd with
      | none => Except.error (.keyError key)
      | some d => marginalQ d key

/-- Transcribed from world.py getFeature: the decoded marginal distribution
of one key (asserts the variable is defined). -/
def PWorld.getFeature (w : PWorld) (key : Key) (s : VDSet) : Except PyErr (PDist PyValue) := do
  if (tget? w.variableDefs key).isNone then
    Except.error (.assertionError ("Unknown element " ++ key))
  else do
    let m ← VDSet.marginal s key
    w.float2valueDist key m

/-- Transcribed from world.py getValue, KeyedVector branch. -/
def PWorld.getValueVec (w : PWorld) (key : Key) (x : KeyedVector) : Except PyErr PyValue := do
  match vget? x key with
  | none => Except.error (.keyError key)
  | some q => w.float2value key (.num q)

/-- Transcribed from world.py getValue, distribution branch: requires a
singleton decoded marginal. -/
def PWorld.getValueDist (w : PWorld) (key : Key) (s : VDSet) : Except PyErr PyValue := do
  let marginal ← w.getFeature key s
  match marginal with
  | [e] => pure e.fst
  | _ => Except.error (.assertionError "getValue operates on only singleton distributions")

/-- A state argument: a single possible world or a distribution set. -/
inductive StateArg where
  | vec (x : KeyedVector)
  | set (s : VDSet)

/-- Transcribed from world.py terminated: look up TERMINATED, treating a
missing key (KeyError) as not terminated.  getValue never returns a
Distribution object, so the isinstance branch of the source is vacuous. -/
def PWorld.terminated (w : PWorld) (s : StateArg) : Except PyErr PyValue :=
  match (match s with
         | .vec x => w.getValueVec TERMINATED x
         | .set d => w.getValueDist TERMINATED d) with
  | .error (.keyError _) => pure (.bool false)
  | .error e => .error e
  | .ok t => pure t

/-- Transcribed from world.py next (KeyedVector branch): the agents whose
turn keys attain the minimum value. -/
def PWorld.next (w : PWorld) (x : KeyedVector) : List String :=
  let items := x.filter (fun e => isTurnKey e.fst)
  match items with
  | [] => []
  | e0 :: rest =>
      let value := rest.foldl (fun m e => min m (pyInt e.snd)) (pyInt e0.snd)
      (items.filter (fun e => pyInt e.snd == value)).map (fun e => turn2name e.fst)

/-- Transcribed from world.py getModel (KeyedVector branch): resolve the
model float through index2model, with a missing model key meaning the real
agent (True). -/
def PWorld.getModel (w : PWorld) (name : String) (x : KeyedVector) : Except PyErr ModelRef := do
  let ag ← w.getAgent name
  match vget? x (modelKey name) with
  | none => pure .tru
  | some q => pure (.name (ag.index2model q))

/-- Transcribed from world.py getDynamics after input normalization: try the
exact ActionSet match (skipped for unhashable list input, whose dict lookup
raises TypeError), then per-atom lookups with the parameter fallback, then
the wildcard entry. -/
def getDynamicsCore (entries : List (DynPat × PLTree)) (atoms : List PAction) (tryExact : Bool) : List PLTree :=
  match (if tryExact then dynLookupPat entries (.pat atoms) else none) with
  | some tree => [tree]
  | none =>
    let dyn := atoms.foldl (fun acc atom =>
      match dynLookupPat entries (.pat [atom]) with
      | some t => acc ++ [t]
      | none =>
        if atom.hasExtra then
          match dynLookupPat entries (.pat [atom.root]) with
          | some t =>
              acc ++ [PLTree.desymbolize (atom.params.map (fun pr => (actionKey pr.fst, pr.snd))) t]
          | none => acc
        else acc) []
    if dyn.isEmpty then
      match dynLookupPat entries .wild with
      | some t => [t]
      | none => []
    else dyn

/-- Transcribed from world.py getDynamics: a missing key returns the empty
list; a single Action is normalized to a singleton ActionSet and a
per-agent table to the joint ActionSet of its entries. -/
def PWorld.getDynamics (w : PWorld) (key : Key) (action : ActionsState) : List PLTree :=
  match tget? w.dynamics key with
  | none => []
  | some entries =>
    match action with
    | .set s => getDynamicsCore entries s true
    | .table t => getDynamicsCore entries (flattenTable t) true
    | .list l => getDynamicsCore entries l false

/-- Normalization of a bare Action argument of getDynamics. -/
def PWorld.getDynamicsAtom (w : PWorld) (key : Key) (a : PAction) : List PLTree :=
  w.getDynamics key (.set [a])

/-- A single possible world or a distribution over worlds, as returned by
singleDeltaVector. -/
inductive VecOrDist where
  | vec (v : KeyedVector)
  | dist (d : PDist KeyedVector)
deriving DecidableEq, Repr

/-- Transcribed from world.py singleDeltaVector, single-tree case: apply
the tree at the old vector; a None leaf is a null effect, a deterministic
matrix overlays the old vector, and a stochastic leaf joins the key
marginal of the matrix-distribution product into the old vector. -/
def PWorld.applyTreeDelta (w : PWorld) (tree : PLTree) (old : KeyedVector) (key : Key) : Except PyErr VecOrDist := do
  let tv ← tree.apply old
  match tv with
  | .nullLeaf => pure (.vec old)
  | .mat m => pure (.vec (vupdate old (mulVec m old)))
  | .matDist md =>
      let newValue : PDist KeyedVector :=
        md.foldl (fun acc e => PDist.addProb acc (mulVec e.fst old) e.snd) []
      let marg ← marginalQ newValue key
      pure (.dist (distJoin [(old, 1)] key marg))

/-- Transcribed from world.py singleDeltaVector: empty dynamics leave the
vector unchanged; multiple trees require the star combinator and are
applied in sequence. -/
def PWorld.singleDeltaVector (w : PWorld) (actions : ActionsState) (old : KeyedVector)
    (key : Key) (dynOpt : Option (List PLTree)) : Except PyErr VecOrDist := do
  let dynamics := match dynOpt with
    | none => w.getDynamics key actions
    | some d => d
  match dynamics with
  | [] => pure (.vec old)
  | [tree] => w.applyTreeDelta tree old key
  | trees => do
      let vd ← w.getVar key
      if vd.combinator != some "*" then
        Except.error (.assertionError ("No valid combinator specified for multiple effects on " ++ key))
      else
        trees.foldlM (fun st tree =>
          match st with
          | .vec v => w.applyTreeDelta tree v key
          | .dist d => do
              let nd ← d.foldlM (fun acc e => do
                  let part ← w.applyTreeDelta tree e.fst key
                  pure (match part with
                    | .vec nv => PDist.addProb acc nv e.snd
                    | .dist pd => pd.foldl (fun a2 e2 => PDist.addProb a2 e2.fst (e.snd * e2.snd)) acc)) []
              pure (.dist nd)) (VecOrDist.vec old)

/-- Transcribed from world.py multiDeltaVector: join the per-key deltas of
one key set into a distribution seeded with the old vector. -/
def PWorld.multiDeltaVector (w : PWorld) (actions : ActionsState) (old : KeyedVector)
    (keys : List Key) : Except PyErr (PDist KeyedVector) :=
  keys.foldlM (fun new key => do
    let part ← w.singleDeltaVector actions old key none
    match part with
    | .vec pv =>
        match vget? pv key with
        | some q => pure (distJoin new key [(q, 1)])
        | none => pure new
    | .dist pd => do
        let m ← marginalQ pd key
        pure (distJoin new key m)) [(old, 1)]

/-- The inner loop of one deltaState pass: expand every support vector of
the running distribution over one key set, combining masses. -/
def PWorld.deltaStatePass (w : PWorld) (actions : ActionsState) (ks : List Key)
    (old : PDist KeyedVector) : Except PyErr (PDist KeyedVector) :=
  old.foldlM (fun acc e => do
      let part ← w.multiDeltaVector actions e.fst ks
      pure (part.foldl (fun a2 e2 => PDist.addProb a2 e2.fst (e.snd * e2.snd)) acc)) []

/-- One iteration of the deltaState loop: filter the key set, skip if
empty, else expand every support vector and record the pass. -/
def PWorld.deltaStateBody (w : PWorld) (actions : ActionsState) (keys : Option (List Key))
    (st : PDist KeyedVector × Option (PDist KeyedVector) × List EffectItem)
    (keySet : List Key) :
    Except PyErr (PDist KeyedVector × Option (PDist KeyedVector) × List EffectItem) := do
  let (old, lastNew, effects) := st
  let keySet := match keys with
    | none => keySet
    | some ks => keySet.filter (fun k => ks.contains k)
  if keySet.isEmpty then pure (old, lastNew, effects)
  else do
    let new ← w.deltaStatePass actions keySet old
    pure (new, some new, effects ++ [EffectItem.mats [([], 1)]])

/-- Transcribed from world.py deltaState (distribution branch): fold each
key set of the dependency evaluation order over the running distribution.
When no key set is processed the source returns an unbound local and
raises NameError. -/
def PWorld.deltaState (w : PWorld) (actions : ActionsState) (old0 : PDist KeyedVector)
    (keys : Option (List Key)) : Except PyErr (PDist KeyedVector × List EffectItem) := do
  let st ← w.evaluation.foldlM (w.deltaStateBody actions keys) (old0, none, [])
  match st.2.1 with
  | none => Except.error (.nameError "new")
  | some n => pure (n, st.2.2)

/-- Values of the per-agent table handed to getTurnDynamics by deltaOrder;
the list-of-atoms input marks agents with the bare value True. -/
inductive TableVal where
  | acts (s : ActionSet)
  | dist (d : PDist ActionSet)
  | tru
deriving Repr

def pyActToTableVal : PyActVal → TableVal
  | .set s => .acts s
  | .atom a => .acts [a]
  | .dist d => .dist d

/-- Modelled from the spec: the atoms carried by a turn table (ActionSet of
a dict); entries without atoms contribute nothing. -/
def flattenTableVals (t : List (String × TableVal)) : ActionSet :=
  t.foldl (fun acc e =>
    match e.snd with
    | .acts s => acc ++ s
    | _ => acc) []

/-- Transcribed from world.py getTurnDynamics: registered dynamics if any;
otherwise the default tree - decrement with wrap to maxTurn for the agent
that acted, and a plain unconditional decrement for an agent that did not
act.  The maxTurn value is threaded as an argument because deltaOrder may
assign self.maxTurn just before calling. -/
def PWorld.getTurnDynamics (w : PWorld) (key : Key) (table : List (String × TableVal)) (maxT : ℚ) : List PLTree :=
  let actions := flattenTableVals table
  let dynamics := w.getDynamics key (.set actions)
  if dynamics.isEmpty then
    let agent := turn2name key
    let tree :=
      if actions.any (fun atom => atom.subject == agent) then
        makeIfThresholdTree key (1 / 2)
          (.leaf (some (incrementMatrix key (-1))))
          (.leaf (some (setToConstantMatrix key maxT)))
      else .leaf (some (incrementMatrix key (-1)))
    [tree]
  else dynamics

/-- Transcribed from world.py deltaOrder: build the per-agent table of who
acted, then overlay the first turn-dynamics matrix of every agent holding a
turn key; non-deterministic turn dynamics fail an assertion.  Returns None
when no agent holds a turn key. -/
def PWorld.deltaOrder (w : PWorld) (actions : ActionsState) (vector : KeyedVector) : Except PyErr (Option KeyedMatrix) := do
  let potentials := (w.agents.map Prod.fst).filter (fun n => vhas vector (turnKey n))
  if potentials.isEmpty then pure none
  else do
    let maxT := match w.maxTurn with
      | some m => m
      | none =>
          match potentials with
          | [] => 0
          | p0 :: rest => rest.foldl (fun m n => max m (vgetD vector (turnKey n))) (vgetD vector (turnKey p0))
    let table : List (String × TableVal) :=
      match actions with
      | .set s => s.foldl (fun t atom =>
          match tget? t atom.subject with
          | some (.acts prev) => tset t atom.subject (.acts (prev ++ [atom]))
          | _ => tset t atom.subject (.acts [atom])) []
      | .table t => t.map (fun e => (e.fst, pyActToTableVal e.snd))
      | .list l => l.foldl (fun t atom => tset t atom.subject .tru) []
    let delta ← potentials.foldlM (fun delta name => do
        let key := turnKey name
        let dynamics := w.getTurnDynamics key table maxT
        match dynamics with
        | [] => Except.error (.indexError "turn dynamics")
        | tree :: _ => do
            let tv ← tree.apply vector
            match tv with
            | .mat m => pure (matUpdate delta m)
            | _ => Except.error (.assertionError "Dynamics must be deterministic")) ([] : KeyedMatrix)
    pure (some delta)

def keysAllow (keys : Option (List Key)) (k : Key) : Bool :=
  match keys with
  | none => true
  | some ks => ks.contains k

/-- The fields of the dictionary returned by effect: the new distribution,
the effect log, and the agents for which a state-estimator entry was
created. -/
structure EffectResult where
  new : PDist KeyedVector
  eff : List EffectItem
  se : List String
deriving DecidableEq, Repr

/-- The turn overlay of effect (single-vector path): apply the combined
turn matrix to every support vector when the delta is present and
nonempty. -/
def turnBlock (dOpt : Option KeyedMatrix) (new : PDist KeyedVector) (eff : List EffectItem) :
    PDist KeyedVector × List EffectItem :=
  match dOpt with
  | some delta =>
      if delta.isEmpty then (new, eff)
      else (new.foldl (fun (acc : PDist KeyedVector) (e : KeyedVector × ℚ) =>
              PDist.addProb acc (vupdate e.fst (mulVec delta e.fst)) e.snd) [],
            eff ++ [EffectItem.mat delta])
  | none => (new, eff)

/-- One agent of one support vector in the belief update of effect. -/
def PWorld.beliefAgentStep (w : PWorld) (actions : ActionsState) (vector : KeyedVector)
    (newVector : KeyedVector) (delta : MatrixDistribution) (name : String) :
    Except PyErr MatrixDistribution := do
  let key := modelKey name
  let ag ← w.getAgent name
  let oldModel ← w.getModel name vector
  let mdl ← modelsLookup ag oldModel
  let modelDistribution ←
    if !mdl.hasBeliefs || mdl.beliefsTrue || mdl.static then
      pure ([([(key, [(key, (1 : ℚ))])], (1 : ℚ))] : MatrixDistribution)
    else do
      let om := ag.observe newVector actions
      pure (om.foldl (fun (md : MatrixDistribution) (oe : PyValue × ℚ) =>
          match ag.stateEstimator vector newVector oe.fst oldModel with
          | none => md
          | some idx => PDist.addProb md [(key, [(CONSTANT, idx)])] oe.snd) [])
  pure (if modelDistribution.isEmpty then delta
        else MatrixDistribution.updateD delta modelDistribution)

/-- The belief-delta accumulation of effect: iterate over the support of
the new distribution, then over the modeled agents. -/
def PWorld.beliefDelta (w : PWorld) (actions : ActionsState) (vector : KeyedVector)
    (agentsModeled : List String) (new : PDist KeyedVector) : Except PyErr MatrixDistribution :=
  new.foldlM (fun (delta : MatrixDistribution) (e : KeyedVector × ℚ) =>
      agentsModeled.foldlM (w.beliefAgentStep actions vector e.fst) delta)
    ([(([] : KeyedMatrix), (1 : ℚ))] : MatrixDistribution)

/-- The belief-application fold of effect; the source reuses one vector
object across the matrices of delta, so each matrix is overlaid on the
result of the previous one. -/
def beliefApply (delta : MatrixDistribution) (new : PDist KeyedVector) : PDist KeyedVector :=
  new.foldl (fun (acc : PDist KeyedVector) (e : KeyedVector × ℚ) =>
      (delta.foldl (fun (pr : KeyedVector × PDist KeyedVector) (de : KeyedMatrix × ℚ) =>
          let nv2 := vupdate pr.fst (mulVec de.fst e.fst)
          (nv2, PDist.addProb pr.snd nv2 (e.snd * de.snd))) (e.fst, acc)).snd) []

/-- Transcribed from world.py effect (KeyedVector branch): seed the new
distribution with the start vector at the given probability, apply state
dynamics, overlay the turn delta, then update agent models; result None
models the cleared dictionary returned when no belief transition is
possible.  The distribution-set branch of the source relies on substate
algebra of the missing pwl module and is outside this embedding. -/
def PWorld.effect (w : PWorld) (actions : ActionsState) (vector : KeyedVector) (probability : ℚ)
    (updateBeliefs : Bool) (keys : Option (List Key)) : Except PyErr (Option EffectResult) := do
  let (new0, eff0) ← w.deltaState actions [(vector, probability)] keys
  let dOpt ← w.deltaOrder actions vector
  let (new, eff) := turnBlock dOpt new0 eff0
  if !updateBeliefs then pure (some ⟨new, eff, []⟩)
  else do
    let names := w.agents.map Prod.fst
    let am0 := names.filter (fun n => vhas vector (modelKey n) && keysAllow keys (modelKey n))
    let se := am0
    -- the source reassigns agentsModeled inside the loop over the filtered
    -- list, dropping the keys filter whenever that list is nonempty
    let agentsModeled := if am0.isEmpty then [] else names.filter (fun n => vhas vector (modelKey n))
    if agentsModeled.isEmpty then pure (some ⟨new, eff, se⟩)
    else do
      let delta ← w.beliefDelta actions vector agentsModeled new
      let delta := delta.filter (fun (e : KeyedMatrix × ℚ) =>
        agentsModeled.all (fun n => mhas e.fst (modelKey n)))
      if delta.isEmpty then pure none
      else
        pure (some ⟨beliefApply (PDist.normalize delta) new,
                    eff ++ [EffectItem.mats (PDist.normalize delta)], se⟩)

/-- Modelled from the spec: elementwise subtraction of keyed vectors over
the union of their keys (section 3). -/
def vecSub (a b : KeyedVector) : KeyedVector :=
  a.map (fun e => (e.fst, e.snd - vgetD b e.fst)) ++
    (b.filter (fun e => !(vhas a e.fst))).map (fun e => (e.fst, -e.snd))

/-- Modelled from the spec: difference of a vector distribution and a
vector (section 6 arithmetic), used only for the delta field of an
outcome. -/
def distSubVec (d : PDist KeyedVector) (x : KeyedVector) : PDist KeyedVector :=
  d.foldl (fun acc e => PDist.addProb acc (vecSub e.fst x) e.snd) []

/-- The outcome dictionary of one stepFromState call; optional fields model
dictionary keys that may be absent. -/
structure Outcome where
  old : KeyedVector
  decisions : List (String × Decision)
  actions : Option ActionsState
  new : Option VecOrDist
  eff : Option (List EffectItem)
  delta : Option (PDist KeyedVector)
  se : List String
  probability : Option ℚ
deriving DecidableEq, Repr

/-- Transcribed from world.py stepFromState lines 182 to 193: for a
per-agent table, raise NameError for any supplied agent that is out of
turn, then solicit a decision from every agent in turn without a supplied
action, converting single Actions to singleton ActionSets. -/
def PWorld.fillActions (w : PWorld) (vector : KeyedVector) (t : List (String × PyActVal))
    (horizon : Option ℤ) (tiebreak : Option String) :
    Except PyErr (List (String × PyActVal) × List (String × Decision)) := do
  let turn := w.next vector
  (t.map Prod.fst).forM (fun name =>
      if turn.contains name then pure ()
      else Except.error (.nameError ("Agent " ++ name ++ " must wait for its turn")))
  turn.foldlM (fun (st : List (String × PyActVal) × List (String × Decision)) name => do
      let (t2, decs) := st
      match tget? t2 name with
      | none => do
          let ag ← w.getAgent name
          let model ← w.getModel name vector
          let decision := ag.decide vector horizon t2 model tiebreak
          pure (tset t2 name decision.action, decs ++ [(name, decision)])
      | some (.atom a) => pure (tset t2 name (.set [a]), decs)
      | some _ => pure (t2, decs)) (t, [])

/-- The agents of the turn whose table entry is distribution-valued, in
turn order (the stochastic list of the source). -/
def stochasticOf (turn : List String) (t : List (String × PyActVal)) : List String :=
  turn.filter (fun name =>
    match tget? t name with
    | some (.dist _) => true
    | _ => false)

/-- The distribution stored for the single stochastic agent. -/
def getDistEntry (t : List (String × PyActVal)) (s : String) : PDist ActionSet :=
  match tget? t s with
  | some (.dist d) => d
  | _ => []

/-- Mass-combining merge of a second distribution into a first, as done
by the stochastic branch of stepFromState. -/
def mergeAdd (n incoming : PDist KeyedVector) : PDist KeyedVector :=
  incoming.foldl (fun acc e => PDist.addProb acc e.fst e.snd) n

/-- Assemble the outcome of a non-stochastic step from the effect result;
the source sets new and effect together and then derives delta. -/
def mkOutcome (vector : KeyedVector) (decisions : List (String × Decision)) (acts : ActionsState)
    (effR : Option EffectResult) : Outcome :=
  match effR with
  | some r =>
      { old := vector, decisions := decisions, actions := some acts,
        new := some (.dist r.new), eff := some r.eff,
        delta := some (distSubVec r.new vector), se := r.se, probability := none }
  | none =>
      { old := vector, decisions := decisions, actions := some acts,
        new := none, eff := none, delta := none, se := [], probability := none }

/-- Assemble the outcome of the stochastic branch: the merged new
distribution and concatenated effect lists, without the state-estimator
entries (the source copies only new and effect from each branch). -/
def mkOutcomeStoch (vector : KeyedVector) (decisions : List (String × Decision)) (acts : ActionsState)
    (acc : Option (PDist KeyedVector × List EffectItem)) : Outcome :=
  match acc with
  | some (n, e) =>
      { old := vector, decisions := decisions, actions := some acts,
        new := some (.dist n), eff := some e,
        delta := some (distSubVec n vector), se := [], probability := none }
  | none =>
      { old := vector, decisions := decisions, actions := some acts,
        new := none, eff := none, delta := none, se := [], probability := none }

/-- Transcribed from world.py stepFromState (single possible world): early
return on termination; for table-form actions check turns and solicit
decisions; fail on more than one stochastic decision; enumerate the support
of a single stochastic decision into effect; otherwise apply effect once. -/
def PWorld.stepFromState (w : PWorld) (vector : KeyedVector) (actions : ActionsArg)
    (horizon : Option ℤ) (tiebreak : Option String) (updateBeliefs : Bool)
    (keys : Option (List Key)) : Except PyErr Outcome := do
  let term ← w.terminated (.vec vector)
  if pyTruthy term then
    pure { old := vector, decisions := [], actions := none, new := some (.vec vector),
           eff := none, delta := none, se := [], probability := none }
  else do
    let acts0 : ActionsState :=
      match actions with
      | .none => .table []
      | .atom a => .set [a]
      | .set s => .set s
      | .list l => .list l
      | .table t => .table t
    match acts0 with
    | .table t => do
        let (t2, decisions) ← w.fillActions vector t horizon tiebreak
        match stochasticOf (w.next vector) t2 with
        | [] => do
            let effR ← w.effect (.table t2) vector 1 updateBeliefs keys
            pure (mkOutcome vector decisions (.table t2) effR)
        | [s] => do
            let acc ← (getDistEntry t2 s).foldlM
              (fun (acc : Option (PDist KeyedVector × List EffectItem)) (ae : ActionSet × ℚ) => do
                let t3 := tset t2 s (.set ae.fst)
                let effR ← w.effect (.table t3) vector ae.snd updateBeliefs keys
                pure (match effR with
                  | none => acc
                  | some r =>
                    match acc with
                    | none => some (r.new, r.eff)
                    | some pr => some (mergeAdd pr.fst r.new, pr.snd ++ r.eff))) none
            pure (mkOutcomeStoch vector decisions (.table t2) acc)
        | stochastic => Except.error (.notImplementedError stochastic)
    | other => do
        let effR ← w.effect other vector 1 updateBeliefs keys
        pure (mkOutcome vector [] other effR)

/-- Transcribed from world.py stepFromVector: the body is identical to
stepFromState except for a print statement before the delta computation,
which does not affect the returned outcome. -/
def PWorld.stepFromVector (w : PWorld) (vector : KeyedVector) (actions : ActionsArg)
    (horizon : Option ℤ) (tiebreak : Option String) (updateBeliefs : Bool)
    (keys : Option (List Key)) : Except PyErr Outcome := do
  let term ← w.terminated (.vec vector)
  if pyTruthy term then
    pure { old := vector, decisions := [], actions := none, new := some (.vec vector),
           eff := none, delta := none, se := [], probability := none }
  else do
    let acts0 : ActionsState :=
      match actions with
      | .none => .table []
      | .atom a => .set [a]
      | .set s => .set s
      | .list l => .list l
      | .table t => .table t
    match acts0 with
    | .table t => do
        let (t2, decisions) ← w.fillActions vector t horizon tiebreak
        match stochasticOf (w.next vector) t2 with
        | [] => do
            let effR ← w.effect (.table t2) vector 1 updateBeliefs keys
            pure (mkOutcome vector decisions (.table t2) effR)
        | [s] => do
            let acc ← (getDistEntry t2 s).foldlM
              (fun (acc : Option (PDist KeyedVector × List EffectItem)) (ae : ActionSet × ℚ) => do
                let t3 := tset t2 s (.set ae.fst)
                let effR ← w.effect (.table t3) vector ae.snd updateBeliefs keys
                pure (match effR with
                  | none => acc
                  | some r =>
                    match acc with
                    | none => some (r.new, r.eff)
                    | some pr => some (mergeAdd pr.fst r.new, pr.snd ++ r.eff))) none
            pure (mkOutcomeStoch vector decisions (.table t2) acc)
        | stochastic => Except.error (.notImplementedError stochastic)
    | other => do
        let effR ← w.effect other vector 1 updateBeliefs keys
        pure (mkOutcome vector [] other effR)

/-- Transcribed from world.py step (vector-distribution state): run
stepFromState on every support vector, then, for a real step, rebuild the
state by accumulating each outcome, sampling one world per outcome when
select is set.  An empty rebuilt state reaches the diagnostic block, whose
first statement raises TypeError (see the comment in the body); otherwise
the outcomes are appended to the history, which is threaded explicitly
instead of being mutated on the world.  The distribution-set state branch
of the source depends on the missing pwl substate algebra and is outside
this embedding. -/
def PWorld.step (w : PWorld) (actions : ActionsArg) (state : PDist KeyedVector)
    (real select : Bool) (keys : Option (List Key)) (history : List (List Outcome)) :
    Except PyErr (List Outcome × PDist KeyedVector × List (List Outcome)) := do
  let outcomes ← state.foldlM (fun (acc : List Outcome) (e : KeyedVector × ℚ) => do
      let o ← w.stepFromState e.fst actions none none true keys
      pure (acc ++ [{ o with probability := some e.snd }])) []
  if real then
    if keys.isSome then
      Except.error (.assertionError "Cannot perform real step over a subset of keys")
    else do
      let newState := outcomes.foldl (fun (st : PDist KeyedVector) o =>
          match o.new with
          | none => st
          | some nv =>
            let distL : PDist KeyedVector :=
              match nv with
              | .dist d => if select then [(w.sample d, 1)] else d
              | .vec v => [(v, 1)]
            distL.foldl (fun st2 e => PDist.addProb st2 e.fst (e.snd * o.probability.getD 0)) st) []
      if newState.isEmpty then
        -- Source lines 146 to 154 intend to raise RuntimeError with a
        -- diagnostic listing the attempted actions and the starting support.
        -- Under from __future__ import print_function (line 1 of world.py)
        -- the statement
        --   print >> buf, text
        -- is parsed as the expression (print >> buf), text and applying the
        -- shift operator to the builtin print function raises TypeError, so
        -- the step fails before any diagnostic is built and before history
        -- is appended.
        Except.error (.typeError "unsupported operand types for rshift: builtin function and StringIO")
      else
        let hist := if w.memory then history ++ [outcomes] else history
        pure (outcomes, newState, hist)
  else pure (outcomes, state, history)

/-- One entry of the options table built by evaluateChoices: the string
representation of the action and its evaluated value.  The table is keyed
by the string representation, so entries are distinct; the list order
models the dictionary iteration order of values(). -/
structure LAOption where
  action : String
  value : ℚ
deriving DecidableEq, Repr

/-- Python cmp on strings. -/
def cmpStr (a b : String) : Ordering :=
  if a < b then .lt else if b < a then .gt else .eq

/-- CPython list.sort called with a comparator that returns the same value
c for every pair (the comparator of findBest ignores its two arguments):
timsort first scans for an initial run; with constant c less than zero
every adjacent pair counts as strictly descending, so the whole list is one
descending run and is reversed; with constant c at least zero the whole
list is one ascending run and is left unchanged.  In both cases the run
covers the list and the sort terminates with no merging. -/
def pysortConstCmp (c : Ordering) (l : List String) : List String :=
  if c == Ordering.lt then l.reverse else l

/-- Transcribed from LookaheadPolicy.py findBest: fold over the evaluated
options, maintaining the best actions, the best value, and the current
best action.  The tie-break sort is invoked with the comparator
cmp(str(action), str(bestAction)), whose arguments x and y are unused, so
the sort behaves as pysortConstCmp; the non-singleChoice branch references
the unbound name Distribution and raises NameError, as does the final read
of bestValue when there are no options. -/
def findBest (consistentTieBreaking singleChoice : Bool) (results : List LAOption) :
    Except PyErr String := do
  let st ← results.foldlM
    (fun (st : List String × Option ℚ × Option String) r => do
      let (bestActions0, bestValue0, bestAction0) := st
      let (bestActions1, bestValue1) :=
        if bestActions0.isEmpty then ([r.action], some r.value)
        else if bestValue0.getD 0 < r.value then ([r.action], some r.value)
        else if r.value < bestValue0.getD 0 then (bestActions0, bestValue0)
        else (bestActions0 ++ [r.action], bestValue0)
      let bestActions2 :=
        if 1 < bestActions1.length && consistentTieBreaking then
          pysortConstCmp (cmpStr r.action (bestAction0.getD "")) bestActions1
        else bestActions1
      if singleChoice then
        pure (bestActions2, bestValue1, some (bestActions2.headD ""))
      else Except.error (.nameError "Distribution"))
    ([], none, none)
  match st.2.2 with
  | some a => pure a
  | none => Except.error (.nameError "bestValue")

/-- Claim-side restatement of the getDynamics lookup policy, written from
the specification sentence of section 4.3: exact ActionSet match first;
otherwise the per-atom matches, substituting parameters through
desymbolize for parameterized atoms; otherwise the wildcard entry if
present, else nothing. -/
def getDynamicsSpec (w : PWorld) (key : Key) (A : ActionSet) : List PLTree :=
  match tget? w.dynamics key with
  | none => []
  | some entries =>
    match dynLookupPat entries (.pat A) with
    | some t => [t]
    | none =>
      let perAtom := A.flatMap (fun atom =>
        match dynLookupPat entries (.pat [atom]) with
        | some t => [t]
        | none =>
          if atom.hasExtra then
            match dynLookupPat entries (.pat [atom.root]) with
            | some t =>
                [PLTree.desymbolize (atom.params.map (fun pr => (actionKey pr.fst, pr.snd))) t]
            | none => []
          else [])
      if perAtom.isEmpty then
        match dynLookupPat entries .wild with
        | some t => [t]
        | none => []
      else perAtom

-- ===== concrete instances =====


/-- Witness world for termination absorption: one defined TERMINATED bool
variable and no agents. -/
def termWorld : PWorld :=
  { agents := [],
    variableDefs := [(TERMINATED, ⟨.bool, none⟩)],
    symbols := [], symbolList := [],
    dynamics := [], evaluation := [[TERMINATED]],
    maxTurn := none, memory := true,
    sample := fun d => (d.headD ([], 0)).fst }

/-- A vector in which TERMINATED holds. -/
def termVec : KeyedVector := [(CONSTANT, 1), (TERMINATED, 1)]



/-- Membership of a value in a declared variable domain. -/
def inDomain : VarDomain → PyValue → Bool
  | .bool, .bool _ => true
  | .int, .int _ => true
  | .float, .num _ => true
  | .list es, u => es.contains u
  | .set es, u => es.contains u
  | .actionSet es, u => es.contains u
  | _, _ => false

/-- Agent with a single named model, used for the model-key round-trip
counterexample. -/
def myopicAgent : PAgent :=
  { models := [(.name "myopic", ⟨true, false, false⟩)],
    index2model := fun _ => "myopic",
    decide := fun _ _ _ _ _ => ⟨.set []⟩,
    observe := fun _ _ => [], stateEstimator := fun _ _ _ _ => none }

/-- World in which setModel has defined the model key of agent A with the
default float domain. -/
def modelKeyWorld : PWorld :=
  { agents := [("A", myopicAgent)],
    variableDefs := [(TERMINATED, ⟨.bool, none⟩), (modelKey "A", ⟨.float, none⟩)],
    symbols := [], symbolList := [],
    dynamics := [], evaluation := [[TERMINATED]],
    maxTurn := none, memory := true,
    sample := fun d => (d.headD ([], 0)).fst }

/-- World with one enumerated variable, for the round-trip witness. -/
def enumWorld : PWorld :=
  { agents := [],
    variableDefs := [(TERMINATED, ⟨.bool, none⟩), ("color", ⟨.list [.str "red", .str "green"], none⟩)],
    symbols := [(.str "red", 0), (.str "green", 1)],
    symbolList := [.str "red", .str "green"],
    dynamics := [], evaluation := [[TERMINATED]],
    maxTurn := none, memory := true,
    sample := fun d => (d.headD ([], 0)).fst }



/-- Distribution-set state whose TERMINATED marginal is the singleton true. -/
def termSetTrue : VDSet :=
  { keyMap := [(TERMINATED, 0)],
    distributions := [(0, [([(CONSTANT, 1), (TERMINATED, 1)], 1)])] }

/-- Distribution-set state with no TERMINATED key. -/
def termSetMissing : VDSet :=
  { keyMap := [], distributions := [] }

/-- Distribution-set state terminated with probability one half. -/
def termSetAmb : VDSet :=
  { keyMap := [(TERMINATED, 0)],
    distributions := [(0, [([(CONSTANT, 1), (TERMINATED, 1)], 1 / 2),
                           ([(CONSTANT, 1), (TERMINATED, 0)], 1 / 2)])] }



/-- Agent whose state estimator rejects every observation branch, so the
belief update of effect has no consistent transition. -/
def seNoneAgent : PAgent :=
  { models := [(.name "m0", ⟨true, false, false⟩)],
    index2model := fun _ => "m0",
    decide := fun _ _ _ _ _ => ⟨.set []⟩,
    observe := fun _ _ => [(.num 0, 1)],
    stateEstimator := fun _ _ _ _ => none }

/-- World in which every step loses all probability mass in the belief
update. -/
def stepFailWorld : PWorld :=
  { agents := [("A", seNoneAgent)],
    variableDefs := [(TERMINATED, ⟨.bool, none⟩), (modelKey "A", ⟨.float, none⟩)],
    symbols := [], symbolList := [],
    dynamics := [], evaluation := [[TERMINATED]],
    maxTurn := none, memory := true,
    sample := fun d => (d.headD ([], 0)).fst }

/-- Starting state for the failing step: one world carrying the model key
of agent A. -/
def stepFailState : PDist KeyedVector :=
  [([(CONSTANT, 1), (TERMINATED, 0), (modelKey "A", 0)], 1)]



/-- A no-op action of agent B. -/
def atomB : PAction := ⟨"B", "noop", []⟩

/-- Two-agent world with turn keys and no registered dynamics. -/
def turnWorld : PWorld :=
  { agents := [("A", ⟨[], fun _ => "m0", fun _ _ _ _ _ => ⟨.set []⟩, fun _ _ => [], fun _ _ _ _ => none⟩),
               ("B", ⟨[], fun _ => "m0", fun _ _ _ _ _ => ⟨.set []⟩, fun _ _ => [], fun _ _ _ _ => none⟩)],
    variableDefs := [(TERMINATED, ⟨.bool, none⟩), (turnKey "A", ⟨.int, none⟩), (turnKey "B", ⟨.int, none⟩)],
    symbols := [], symbolList := [],
    dynamics := [], evaluation := [[TERMINATED]],
    maxTurn := some 1, memory := true,
    sample := fun d => (d.headD ([], 0)).fst }

/-- State in which it is the turn of agent A (turn value 0) and not of
agent B (turn value 1). -/
def turnVec : KeyedVector :=
  [(CONSTANT, 1), (TERMINATED, 0), (turnKey "A", 0), (turnKey "B", 1)]



/-- A no-op action of agent A. -/
def atomA : PAction := ⟨"A", "noop", []⟩

/-- State in which both turn counters are zero. -/
def turnVec0 : KeyedVector :=
  [(CONSTANT, 1), (TERMINATED, 0), (turnKey "A", 0), (turnKey "B", 0)]



/-- Claim-side description of the stochastic branch of stepFromState:
enumerate the support of the single stochastic decision, run effect with
unit mass for each action, and merge the resulting new distributions with
their masses scaled by the action probabilities, concatenating the effect
logs and skipping branches with no consistent transition. -/
def specStochastic (w : PWorld) (x : KeyedVector) (t2 : List (String × PyActVal)) (s : String)
    (updateBeliefs : Bool) (keys : Option (List Key)) :
    Except PyErr (Option (PDist KeyedVector × List EffectItem)) :=
  (getDistEntry t2 s).foldlM
    (fun (acc : Option (PDist KeyedVector × List EffectItem)) (ae : ActionSet × ℚ) => do
      let effR ← w.effect (.table (tset t2 s (.set ae.fst))) x 1 updateBeliefs keys
      pure (match effR with
        | none => acc
        | some r =>
          match acc with
          | none => some (scaleDist ae.snd r.new, r.eff)
          | some pr => some (mergeAdd pr.fst (scaleDist ae.snd r.new), pr.snd ++ r.eff))) none

/-- Agent that always announces a distribution over the given action set
singleton (a stochastic decision). -/
def stochAgent (a : PAction) : PAgent :=
  { models := [], index2model := fun _ => "m0",
    decide := fun _ _ _ _ _ => ⟨.dist [([a], 1)]⟩,
    observe := fun _ _ => [], stateEstimator := fun _ _ _ _ => none }

/-- Two-agent world in which both agents return stochastic decisions. -/
def stochWorld : PWorld :=
  { agents := [("A", stochAgent atomA), ("B", stochAgent atomB)],
    variableDefs := [(TERMINATED, ⟨.bool, none⟩), (turnKey "A", ⟨.int, none⟩),
                     (turnKey "B", ⟨.int, none⟩)],
    symbols := [], symbolList := [],
    dynamics := [], evaluation := [[TERMINATED]],
    maxTurn := some 1, memory := true,
    sample := fun d => (d.headD ([], 0)).fst }

/-- State in which both agents of stochWorld act simultaneously. -/
def stochVec : KeyedVector :=
  [(CONSTANT, 1), (TERMINATED, 0), (turnKey "A", 0), (turnKey "B", 0)]


-- ===== theorems =====

attribute [simp] CONSTANT TERMINATED listEndsWith strDropRight TURNTAG turnKey isTurnKey
  turn2name MODELTAG modelKey isModelKey model2name actionKey pyInt pyIndex vget? vgetD vhas
  vset vupdate tget? tset PDist.addProb PDist.domain PDist.total scaleDist PDist.normalize marginalQ
  distJoin rowDot mulVec mhas mset matUpdate MatrixDistribution.updateD svalEval srowEval
  smatrixEval stochEval PLTree.apply svalDesym srowDesym smatrixDesym PLTree.desymbolize
  incrementMatrix setToConstantMatrix makeIfThresholdTree PAction.root PAction.hasExtra
  ActionSet.seteq flattenTable pyTruthy asNum PWorld.getVar PWorld.getAgent
  modelsLookup mrefLookup symAssoc symLookup PWorld.value2float PWorld.float2value PWorld.float2valueDist
  PWorld.roundTrip VDSet.marginal PWorld.getFeature PWorld.getValueVec PWorld.getValueDist
  PWorld.terminated PWorld.next PWorld.getModel getDynamicsCore PWorld.getDynamics
  PWorld.getDynamicsAtom PWorld.applyTreeDelta PWorld.singleDeltaVector PWorld.multiDeltaVector
  PWorld.deltaState PWorld.deltaStatePass PWorld.deltaStateBody pyActToTableVal flattenTableVals PWorld.getTurnDynamics PWorld.deltaOrder
  keysAllow PWorld.effect turnBlock PWorld.beliefAgentStep PWorld.beliefDelta beliefApply vecSub distSubVec PWorld.fillActions stochasticOf getDistEntry
  mergeAdd mkOutcome mkOutcomeStoch PWorld.stepFromState PWorld.stepFromVector PWorld.step
  cmpStr pysortConstCmp findBest dynPatEq dynLookupPat getDynamicsSpec specStochastic
  List.foldlM

/-- Bind of a successful Except computation. -/
@[simp] theorem pbind_ok (a : α) (f : α → Except ε β) :
    (Except.ok a : Except ε α) >>= f = f a := rfl

/-- Bind of a failed Except computation. -/
@[simp] theorem pbind_err (e : ε) (f : α → Except ε β) :
    (Except.error e : Except ε α) >>= f = Except.error e := rfl

/-- Pure of the Except monad. -/
@[simp] theorem ppure_eq (a : α) : (pure a : Except ε α) = Except.ok a := rfl

/-- Map over a successful Except computation. -/
@[simp] theorem pmap_ok (f : α → β) (a : α) :
    Except.map f (Except.ok a : Except ε α) = Except.ok (f a) := rfl

/-- Map over a failed Except computation. -/
@[simp] theorem pmap_err (f : α → β) (e : ε) :
    Except.map f (Except.error e : Except ε α) = Except.error e := rfl

/-- C1: for every state vector in which TERMINATED is true and every action
argument, stepFromState returns an outcome whose new field equals its old
field and solicits no agent decisions (transcribed early return of
stepFromState). -/
theorem C1_termination_absorption (w : PWorld) (x : KeyedVector) (a : ActionsArg)
    (horizon : Option ℤ) (tiebreak : Option String) (updateBeliefs : Bool)
    (keys : Option (List Key))
    (h : w.getValueVec TERMINATED x = .ok (.bool true)) :
    w.stepFromState x a horizon tiebreak updateBeliefs keys =
      .ok { old := x, decisions := [], actions := none, new := some (.vec x),
            eff := none, delta := none, se := [], probability := none } := by
  simp only [PWorld.stepFromState, PWorld.terminated, h, pbind_ok, ppure_eq, pyTruthy,
    eq_self_iff_true, if_true]

/-- C1 witness: a concrete terminated vector, on which stepFromState is the
identity outcome with no decisions. -/
theorem C1_termination_absorption_witness :
    termWorld.getValueVec TERMINATED termVec = .ok (.bool true) ∧
    termWorld.stepFromState termVec .none none none true none =
      .ok { old := termVec, decisions := [], actions := none,
            new := some (.vec termVec), eff := none, delta := none,
            se := [], probability := none } := by
  have h : termWorld.getValueVec TERMINATED termVec = .ok (.bool true) := by
    norm_num +decide [termWorld, termVec]
  exact ⟨h, C1_termination_absorption termWorld termVec .none none none true none h⟩

/-- C5: stepFromVector and stepFromState agree on every combination of
arguments; the transcribed bodies are identical because the only textual
difference in the source is a print statement that does not affect the
returned outcome. -/
theorem C5_stepFromVector_equals_stepFromState (w : PWorld) (vector : KeyedVector)
    (actions : ActionsArg) (horizon : Option ℤ) (tiebreak : Option String)
    (updateBeliefs : Bool) (keys : Option (List Key)) :
    w.stepFromVector vector actions horizon tiebreak updateBeliefs keys =
      w.stepFromState vector actions horizon tiebreak updateBeliefs keys := rfl

/-- Casting an integer into the rationals and truncating is the identity. -/
theorem pyInt_intCast (n : ℤ) : pyInt (n : ℚ) = n := by
  unfold pyInt
  by_cases h : (0 : ℚ) ≤ (n : ℚ)
  · rw [if_pos h, Int.floor_intCast]
  · rw [if_neg h, ← Int.cast_neg, Int.floor_intCast, neg_neg]

/-- Truncating a natural symbol index nudged by one tenth recovers the
index. -/
theorem pyInt_natCast_tenth (n : ℕ) : pyInt ((n : ℚ) + 1 / 10) = (n : ℤ) := by
  unfold pyInt
  have h0 : (0 : ℚ) ≤ (n : ℚ) + 1 / 10 := by positivity
  rw [if_pos h0, Int.floor_eq_iff]
  constructor
  · push_cast; linarith
  · push_cast; linarith

/-- Python indexing at a valid natural index returns the list element. -/
theorem pyIndex_get? (l : List α) (n : ℕ) (v : α) (h : l.get? n = some v) :
    pyIndex l (n : ℤ) = Except.ok v := by
  obtain ⟨hlt, hv⟩ := List.get?_eq_some.mp h
  have hnn : ¬((n : ℤ) < 0) := by omega
  have h2 : ((n : ℤ)).toNat < l.length := by simpa using hlt
  simp only [pyIndex, hnn, if_false, ppure_eq]
  rw [dif_pos ⟨by omega, h2⟩]
  exact congrArg Except.ok hv

/-- C9 counterexample: the model key of agent A is a defined key with float
domain (setModel defines it with the default domain), 0 is in the float
domain, and the encode-decode round trip returns the model name resolved
through index2model instead of the original float, so the round trip is not
the identity on every defined key. -/
theorem C9_roundtrip_counterexample :
    tget? modelKeyWorld.variableDefs (modelKey "A") = some ⟨.float, none⟩ ∧
    inDomain VarDomain.float (.num 0) = true ∧
    modelKeyWorld.roundTrip (modelKey "A") (.num 0) = .ok (.str "myopic") ∧
    Except.ok (PyValue.str "myopic") ≠ (Except.ok (PyValue.num 0) : Except PyErr PyValue) := by
  refine ⟨rfl, rfl, rfl, ?_⟩
  intro h
  injection h with h2
  cases h2

/-- C9 amended: for every defined key and every value in its declared
domain, encode-decode is the identity, provided the key is not a model key
when its domain is float (model keys decode through index2model), and the
symbol table is consistent for enumerated values (as maintained by
defineVariable, which appends each new symbol and records its index). -/
theorem C9_roundtrip_amended (w : PWorld) (key : Key) (vd : VarDef) (v : PyValue)
    (hvar : tget? w.variableDefs key = some vd)
    (hdom : inDomain vd.domain v = true)
    (henum : ∀ es, vd.domain = .list es ∨ vd.domain = .set es ∨ vd.domain = .actionSet es →
      ∃ i : ℕ, symAssoc w.symbols v = some i ∧ w.symbolList.get? i = some v)
    (hmodel : vd.domain = .float → isModelKey key = false) :
    w.roundTrip key v = .ok v := by
  have hget : w.getVar key = .ok vd := by simp only [PWorld.getVar, hvar, ppure_eq]
  cases hd : vd.domain with
  | bool =>
      cases v with
      | bool b =>
          cases b
          · simp only [PWorld.roundTrip, PWorld.value2float, PWorld.float2value, hget, hd,
              pbind_ok, ppure_eq, pyTruthy, asNum, if_false, Bool.false_eq_true, ite_false]
            norm_num
          · simp only [PWorld.roundTrip, PWorld.value2float, PWorld.float2value, hget, hd,
              pbind_ok, ppure_eq, pyTruthy, asNum, if_true, ite_true]
            norm_num
      | int n => rw [hd] at hdom; simp [inDomain] at hdom
      | num q => rw [hd] at hdom; simp [inDomain] at hdom
      | str st => rw [hd] at hdom; simp [inDomain] at hdom
      | actSet a => rw [hd] at hdom; simp [inDomain] at hdom
  | int =>
      cases v with
      | int n =>
          simp only [PWorld.roundTrip, PWorld.value2float, PWorld.float2value, hget, hd,
            pbind_ok, ppure_eq, asNum, pyInt_intCast]
      | bool b => rw [hd] at hdom; simp [inDomain] at hdom
      | num q => rw [hd] at hdom; simp [inDomain] at hdom
      | str st => rw [hd] at hdom; simp [inDomain] at hdom
      | actSet a => rw [hd] at hdom; simp [inDomain] at hdom
  | float =>
      cases v with
      | num q =>
          simp only [PWorld.roundTrip, PWorld.value2float, PWorld.float2value, hget, hd,
            pbind_ok, ppure_eq, hmodel hd, Bool.false_eq_true, if_false, ite_false]
      | bool b => rw [hd] at hdom; simp [inDomain] at hdom
      | int n => rw [hd] at hdom; simp [inDomain] at hdom
      | str st => rw [hd] at hdom; simp [inDomain] at hdom
      | actSet a => rw [hd] at hdom; simp [inDomain] at hdom
  | list es =>
      obtain ⟨i, hsi, hli⟩ := henum es (Or.inl hd)
      simp only [PWorld.roundTrip, PWorld.value2float, PWorld.float2value, hget, hd,
        symLookup, hsi, pbind_ok, ppure_eq, asNum, pyInt_natCast_tenth]
      rw [pyIndex_get? _ _ _ hli]
      rfl
  | set es =>
      obtain ⟨i, hsi, hli⟩ := henum es (Or.inr (Or.inl hd))
      simp only [PWorld.roundTrip, PWorld.value2float, PWorld.float2value, hget, hd,
        symLookup, hsi, pbind_ok, ppure_eq, asNum, pyInt_natCast_tenth]
      rw [pyIndex_get? _ _ _ hli]
      rfl
  | actionSet es =>
      obtain ⟨i, hsi, hli⟩ := henum es (Or.inr (Or.inr hd))
      simp only [PWorld.roundTrip, PWorld.value2float, PWorld.float2value, hget, hd,
        symLookup, hsi, pbind_ok, ppure_eq, asNum, pyInt_natCast_tenth]
      rw [pyIndex_get? _ _ _ hli]
      rfl

/-- C9 witness: the enumerated color variable round-trips the value green. -/
theorem C9_roundtrip_witness :
    enumWorld.roundTrip "color" (.str "green") = .ok (.str "green") :=
  C9_roundtrip_amended enumWorld "color" ⟨.list [.str "red", .str "green"], none⟩ (.str "green")
    rfl rfl
    (fun es h => ⟨1, rfl, rfl⟩)
    (fun h => by cases h)

/-- C10: on a distribution-valued state, terminated is a point query: it
returns the decoded TERMINATED value when the decoded marginal is a
singleton, returns False when the lookup raises KeyError, and fails the
singleton assertion of getValue when the decoded marginal has more than one
value, so a state terminated with probability strictly between zero and one
makes the query raise instead of answering. -/
theorem C10_terminated_point_query (w : PWorld) (s : VDSet) :
    (∀ v p, w.getFeature TERMINATED s = .ok [(v, p)] → w.terminated (.set s) = .ok v) ∧
    (∀ msg, w.getFeature TERMINATED s = .error (.keyError msg) →
      w.terminated (.set s) = .ok (.bool false)) ∧
    (∀ l, w.getFeature TERMINATED s = .ok l → l.length ≠ 1 →
      w.terminated (.set s) =
        .error (.assertionError "getValue operates on only singleton distributions")) := by
  refine ⟨?_, ?_, ?_⟩
  · intro v p h
    simp only [PWorld.terminated, PWorld.getValueDist, h, pbind_ok, ppure_eq]
  · intro msg h
    simp only [PWorld.terminated, PWorld.getValueDist, h, pbind_err, ppure_eq]
  · intro l h hlen
    simp only [PWorld.terminated, PWorld.getValueDist, h, pbind_ok, ppure_eq]
    match l, hlen with
    | [], _ => rfl
    | [e], hlen => exact absurd rfl hlen
    | e1 :: e2 :: rest, _ => rfl

/-- C10 witness: concrete states exercising the three behaviors - a
singleton true marginal, a missing TERMINATED key, and a half-half
marginal that fails the assertion. -/
theorem C10_terminated_point_query_witness :
    termWorld.terminated (.set termSetTrue) = .ok (.bool true) ∧
    termWorld.terminated (.set termSetMissing) = .ok (.bool false) ∧
    termWorld.terminated (.set termSetAmb) =
      .error (.assertionError "getValue operates on only singleton distributions") := by
  refine ⟨(C10_terminated_point_query termWorld termSetTrue).1 (.bool true) 1 ?_,
    (C10_terminated_point_query termWorld termSetMissing).2.1 TERMINATED ?_,
    (C10_terminated_point_query termWorld termSetAmb).2.2
      [(.bool true, 1 / 2), (.bool false, 1 / 2)] ?_ (by norm_num)⟩
  · norm_num +decide [termWorld, termSetTrue]
  · norm_num +decide [termWorld, termSetMissing]
  · norm_num +decide [termWorld, termSetAmb]

/-- C4: evaluation of findBest at a failing input.  The options are beta
and gamma tied at the maximal value 5 and a dominated alpha at 3, evaluated
in the order beta, gamma, alpha with consistent tie-breaking and single
choice.  The alphabetically first tied action is beta, but the comparator
of the tie-break sort ignores its arguments, so processing the dominated
alpha (whose string precedes the current best) reverses the tied list and
the function returns gamma. -/
theorem C4_findBest_tiebreak_bug :
    findBest true true [⟨"beta", 5⟩, ⟨"gamma", 5⟩, ⟨"alpha", 3⟩] = .ok "gamma" ∧
    "gamma" ≠ "beta" := by
  constructor
  · norm_num +decide []
  · decide

/-- C7: evaluation of a real step whose new-state distribution is empty
after dynamics (the belief update of agent A has no consistent
transition).  The source intends to raise RuntimeError with a diagnostic
listing the attempted actions and the starting support, and only then
record history; but with print_function imported the diagnostic block
opens with the statement print with a chevron redirect, which evaluates
the shift operator on the builtin print function and raises a bare
TypeError first.  The step still fails before history is recorded, but
the raised error carries no diagnostic. -/
theorem C7_step_diagnostic_bug :
    stepFailWorld.step .none stepFailState true true none [] =
      .error (.typeError "unsupported operand types for rshift: builtin function and StringIO") := by
  norm_num +decide [stepFailWorld, stepFailState, seNoneAgent]

/-- The out-of-turn check of fillActions raises NameError at the first
supplied agent that is not in the turn set. -/
theorem forM_turnCheck (turn : List String) (names : List String) (name : String)
    (h : names.find? (fun n => !turn.contains n) = some name) :
    (names.forM (fun n =>
      if turn.contains n then pure ()
      else Except.error (.nameError ("Agent " ++ n ++ " must wait for its turn"))) :
        Except PyErr Unit) =
      .error (.nameError ("Agent " ++ name ++ " must wait for its turn")) := by
  induction names with
  | nil => cases h
  | cons n rest ih =>
      by_cases hc : turn.contains n
      · simp only [List.find?_cons, hc, Bool.not_true] at h
        simp only [List.forM_cons', if_pos hc, ppure_eq, pbind_ok]
        exact ih h
      · have hcf : turn.contains n = false := by simpa using hc
        simp only [List.find?_cons, hcf, Bool.not_false] at h
        injection h with h2
        subst h2
        simp only [List.forM_cons', if_neg hc, pbind_err]

/-- C8 counterexample: the action of agent B is supplied as an ActionSet
while it is the turn of agent A only; the claim predicts an OutOfTurn
failure, but the transcribed stepFromState performs the turn check only
for table-form actions, so the step succeeds. -/
theorem C8_out_of_turn_counterexample :
    turnWorld.next turnVec = ["A"] ∧
    atomB.subject = "B" ∧
    (turnWorld.stepFromState turnVec (.set [atomB]) none none true none).isOk = true := by
  refine ⟨?_, rfl, ?_⟩
  · norm_num +decide [turnWorld, turnVec]
  · norm_num +decide [turnWorld, turnVec, atomB, Except.isOk, Except.toBool]

/-- C8 amended: the out-of-turn check applies only when the actions are
supplied as a per-agent table; then the step fails with NameError at the
first supplied agent that is not in the turn set, before any effect is
computed, while ActionSet-form and list-form actions are performed without
a turn check. -/
theorem C8_out_of_turn_amended (w : PWorld) (x : KeyedVector) (t : List (String × PyActVal))
    (horizon : Option ℤ) (tiebreak : Option String) (updateBeliefs : Bool)
    (keys : Option (List Key)) (v : PyValue) (name : String)
    (hterm : w.terminated (.vec x) = .ok v) (hfalse : pyTruthy v = false)
    (hname : (t.map Prod.fst).find? (fun n => !(w.next x).contains n) = some name) :
    w.stepFromState x (.table t) horizon tiebreak updateBeliefs keys =
      .error (.nameError ("Agent " ++ name ++ " must wait for its turn")) := by
  have hfa : w.fillActions x t horizon tiebreak =
      .error (.nameError ("Agent " ++ name ++ " must wait for its turn")) := by
    simp only [PWorld.fillActions]
    rw [forM_turnCheck (w.next x) (t.map Prod.fst) name hname]
    rfl
  simp only [PWorld.stepFromState, hterm, pbind_ok, ppure_eq, hfalse, Bool.false_eq_true,
    if_false, hfa, pbind_err]

/-- C8 witness for the amended claim: supplying the action of agent B in a
per-agent table while it is the turn of agent A raises the wait-your-turn
NameError. -/
theorem C8_out_of_turn_amended_witness :
    turnWorld.stepFromState turnVec (.table [("B", .set [atomB])]) none none true none =
      .error (.nameError ("Agent " ++ "B" ++ " must wait for its turn")) := by
  refine C8_out_of_turn_amended turnWorld turnVec [("B", .set [atomB])] none none true none
    (.bool false) "B" ?_ rfl ?_
  · norm_num +decide [turnWorld, turnVec]
  · norm_num +decide [turnWorld, turnVec]

/-- Stripping the turn decoration recovers the agent name. -/
theorem turn2name_turnKey (nm : String) : turn2name (turnKey nm) = nm := by
  have hdata : (turnKey nm).data = nm.data ++ TURNTAG.data := by
    rw [turnKey, String.data_append]
  apply String.ext
  simp only [turn2name, strDropRight, hdata]
  have hlen : (nm.data ++ TURNTAG.data).length - TURNTAG.length = nm.data.length := by
    rw [List.length_append]
    have h9 : TURNTAG.data.length = TURNTAG.length := rfl
    omega
  rw [hlen]
  exact List.take_left nm.data TURNTAG.data

/-- C3 counterexample: agent A acts while both turn counters are zero and
no custom turn dynamics are registered; maxTurn is 1.  The claim predicts
that the turn key of the non-acting agent B, already at 0, wraps to
maxTurn; but the default tree for a non-acting agent is an unconditional
decrement, so the step drives the counter of B to minus one. -/
theorem C3_turn_default_counterexample :
    turnWorld.getDynamics (turnKey "B") (.set [atomA]) = [] ∧
    turnWorld.maxTurn = some 1 ∧
    turnWorld.deltaOrder (.set [atomA]) turnVec0 =
      .ok (some [(turnKey "A", [(CONSTANT, 1)]),
                 (turnKey "B", [(turnKey "B", 1), (CONSTANT, -1)])]) ∧
    vget? (mulVec [(turnKey "A", [(CONSTANT, 1)]),
                   (turnKey "B", [(turnKey "B", 1), (CONSTANT, -1)])] turnVec0)
        (turnKey "B") = some (-1) ∧
    (some (-1 : ℚ)) ≠ some (1 : ℚ) := by
  refine ⟨by norm_num +decide [turnWorld, atomA], rfl, ?_, ?_, by norm_num⟩
  · norm_num +decide [turnWorld, atomA, turnVec0]
  · norm_num +decide [turnVec0]

/-- C3 amended: when no custom turn dynamics are registered for the
performed actions, the default turn dynamics of a turn key depend on
whether its agent acted: the turn key of an acting agent is decremented
with wrap to maxTurn when already below the threshold, while the turn key
of a non-acting agent is decremented unconditionally, with no wrap. -/
theorem C3_turn_default_amended (w : PWorld) (nm : String) (table : List (String × TableVal))
    (maxT : ℚ) (x : KeyedVector) (q : ℚ)
    (hdyn : w.getDynamics (turnKey nm) (.set (flattenTableVals table)) = [])
    (hq : vget? x (turnKey nm) = some q)
    (hc : vget? x CONSTANT = some 1) :
    ∃ tr m, w.getTurnDynamics (turnKey nm) table maxT = [tr] ∧
      tr.apply x = .ok (.mat m) ∧
      vget? (mulVec m x) (turnKey nm) =
        some (if (flattenTableVals table).any (fun a => a.subject == nm) then
                (if 1 / 2 ≤ q then q - 1 else maxT)
              else q - 1) := by
  have hone : vgetD x CONSTANT = 1 := by rw [vgetD, hc]; rfl
  have hqd : vgetD x (turnKey nm) = q := by rw [vgetD, hq]; rfl
  have hrow1 : rowDot [(turnKey nm, (1 : ℚ))] x = q := by
    simp only [rowDot, List.foldl, hqd]; ring
  have hrowInc : rowDot [(turnKey nm, (1 : ℚ)), (CONSTANT, -1)] x = q - 1 := by
    simp only [rowDot, List.foldl, hqd, hone]; ring
  have hrowC : rowDot [(CONSTANT, maxT)] x = maxT := by
    simp only [rowDot, List.foldl, hone]; ring
  have hgtd : w.getTurnDynamics (turnKey nm) table maxT =
      [if (flattenTableVals table).any (fun a => a.subject == nm) then
         makeIfThresholdTree (turnKey nm) (1 / 2)
           (.leaf (some (incrementMatrix (turnKey nm) (-1))))
           (.leaf (some (setToConstantMatrix (turnKey nm) maxT)))
       else .leaf (some (incrementMatrix (turnKey nm) (-1)))] := by
    simp only [PWorld.getTurnDynamics, hdyn, List.isEmpty_nil, if_true, turn2name_turnKey]
  by_cases hact : (flattenTableVals table).any (fun a => a.subject == nm) = true
  case pos =>
    rw [if_pos hact] at hgtd
    by_cases hge : (1 : ℚ) / 2 ≤ q
    case pos =>
      refine ⟨_, [(turnKey nm, [(turnKey nm, 1), (CONSTANT, -1)])], hgtd, ?_, ?_⟩
      · simp only [makeIfThresholdTree, PLTree.apply, srowEval, svalEval, smatrixEval,
          incrementMatrix, setToConstantMatrix, pbind_ok, ppure_eq]
        rw [if_pos (by rw [hrow1]; exact hge)]
      · simp only [mulVec, List.map, hrowInc, vget?, beq_self_eq_true, if_true, hact, hge,
          if_pos]
    case neg =>
      refine ⟨_, [(turnKey nm, [(CONSTANT, maxT)])], hgtd, ?_, ?_⟩
      · simp only [makeIfThresholdTree, PLTree.apply, srowEval, svalEval, smatrixEval,
          incrementMatrix, setToConstantMatrix, pbind_ok, ppure_eq]
        rw [if_neg (by rw [hrow1]; exact hge)]
      · simp only [mulVec, List.map, hrowC, vget?, beq_self_eq_true, if_true, hact, hge,
          if_false]
  case neg =>
    rw [if_neg hact] at hgtd
    refine ⟨_, [(turnKey nm, [(turnKey nm, 1), (CONSTANT, -1)])], hgtd, ?_, ?_⟩
    · simp only [PLTree.apply, srowEval, svalEval, smatrixEval, incrementMatrix,
        pbind_ok, ppure_eq]
    · have hactf : (flattenTableVals table).any (fun a => a.subject == nm) = false := by
        simpa using hact
      simp only [mulVec, List.map, hrowInc, vget?, beq_self_eq_true, if_true, hactf,
        Bool.false_eq_true, if_false]

/-- C3 witness for the amended claim: with agent A acting and no registered
turn dynamics, the default tree of the non-acting agent B at turn value 0
yields an unconditional decrement. -/
theorem C3_turn_default_amended_witness :
    ∃ tr m, turnWorld.getTurnDynamics (turnKey "B") [("A", .acts [atomA])] 1 = [tr] ∧
      tr.apply turnVec0 = .ok (.mat m) ∧
      vget? (mulVec m turnVec0) (turnKey "B") =
        some (if (flattenTableVals [("A", .acts [atomA])]).any (fun a => a.subject == "B") then
                (if 1 / 2 ≤ (0 : ℚ) then (0 : ℚ) - 1 else 1)
              else (0 : ℚ) - 1) :=
  C3_turn_default_amended turnWorld "B" [("A", .acts [atomA])] 1 turnVec0 0
    (by norm_num +decide [turnWorld, atomA])
    (by norm_num +decide [turnVec0])
    (by norm_num +decide [turnVec0])

/-- The per-atom accumulation loop of getDynamics collects exactly the
per-atom lookups in order. -/
theorem dynFold_eq (entries : List (DynPat × PLTree)) (atoms : List PAction)
    (acc : List PLTree) :
    atoms.foldl (fun acc atom =>
      match dynLookupPat entries (.pat [atom]) with
      | some t => acc ++ [t]
      | none =>
        if atom.hasExtra then
          match dynLookupPat entries (.pat [atom.root]) with
          | some t =>
              acc ++ [PLTree.desymbolize (atom.params.map (fun pr => (actionKey pr.fst, pr.snd))) t]
          | none => acc
        else acc) acc
    = acc ++ atoms.flatMap (fun atom =>
        match dynLookupPat entries (.pat [atom]) with
        | some t => [t]
        | none =>
          if atom.hasExtra then
            match dynLookupPat entries (.pat [atom.root]) with
            | some t =>
                [PLTree.desymbolize (atom.params.map (fun pr => (actionKey pr.fst, pr.snd))) t]
            | none => []
          else []) := by
  induction atoms generalizing acc with
  | nil => simp only [List.foldl_nil, List.flatMap_nil, List.append_nil]
  | cons a rest ih =>
      simp only [List.foldl_cons, List.flatMap_cons]
      cases hfind : dynLookupPat entries (.pat [a]) with
      | some t => rw [ih]; simp
      | none =>
          by_cases hx : a.hasExtra
          · simp only [hx, if_true]
            cases hroot : dynLookupPat entries (.pat [a.root]) with
            | some t => rw [ih]; simp
            | none => rw [ih]; simp
          · have hxf : a.hasExtra = false := by simpa using hx
            simp only [hxf, Bool.false_eq_true, if_false]
            rw [ih]; simp

/-- C2: getDynamics implements the documented lookup policy - the single
exact ActionSet match if registered; otherwise, per atomic action, the
singleton match or, for an action with extra parameters, the tree of its
root with the parameters substituted through desymbolize; otherwise the
wildcard entry if present, else the empty list - and empty dynamics leave
the key unchanged in singleDeltaVector. -/
theorem C2_getDynamics_lookup :
    (∀ (w : PWorld) (key : Key) (A : ActionSet),
      w.getDynamics key (.set A) = getDynamicsSpec w key A) ∧
    (∀ (w : PWorld) (actions : ActionsState) (old : KeyedVector) (key : Key),
      w.getDynamics key actions = [] →
      w.singleDeltaVector actions old key none = .ok (.vec old)) := by
  constructor
  · intro w key A
    simp only [PWorld.getDynamics, getDynamicsSpec, getDynamicsCore]
    cases tget? w.dynamics key with
    | none => rfl
    | some entries =>
        simp only [if_true]
        cases dynLookupPat entries (.pat A) with
        | some t => rfl
        | none =>
            simp only []
            rw [dynFold_eq entries A []]
            simp only [List.nil_append]
  · intro w actions old key h
    simp only [PWorld.singleDeltaVector, h, ppure_eq]

/-- C2 witness: with no registered dynamics the lookup returns the empty
list for both the transcription and the claim-side policy, and the key is
left unchanged by singleDeltaVector. -/
theorem C2_getDynamics_lookup_witness :
    turnWorld.getDynamics "ready" (.set [atomA]) = getDynamicsSpec turnWorld "ready" [atomA] ∧
    turnWorld.getDynamics "ready" (.set [atomA]) = [] ∧
    turnWorld.singleDeltaVector (.set [atomA]) turnVec0 "ready" none = .ok (.vec turnVec0) := by
  refine ⟨C2_getDynamics_lookup.1 turnWorld "ready" [atomA], ?_, ?_⟩
  · norm_num +decide [turnWorld]
  · exact C2_getDynamics_lookup.2 turnWorld (.set [atomA]) turnVec0 "ready"
      (by norm_num +decide [turnWorld])

/-- Mass-combining insertion commutes with scaling all masses. -/
theorem addProb_scale [BEq α] (p : ℚ) (acc : PDist α) (v : α) (q : ℚ) :
    PDist.addProb (scaleDist p acc) v (p * q) = scaleDist p (PDist.addProb acc v q) := by
  induction acc with
  | nil => simp [PDist.addProb, scaleDist]
  | cons e rest ih =>
      obtain ⟨b, q0⟩ := e
      by_cases hv : v == b
      · simp only [scaleDist, List.map_cons, PDist.addProb, hv, if_true]
        simp [mul_add]
      · simp only [scaleDist, List.map_cons, PDist.addProb, hv, Bool.false_eq_true, if_false]
        simp only [scaleDist] at ih
        rw [ih]

/-- Pointwise equal fold bodies give equal monadic folds. -/
theorem foldlM_ext {ε β α : Type} (f g : β → α → Except ε β)
    (h : ∀ b a, f b a = g b a) (l : List α) (init : β) :
    l.foldlM f init = l.foldlM g init := by
  induction l generalizing init with
  | nil => rfl
  | cons a rest ih =>
      simp only [List.foldlM_cons, h]
      cases g init a with
      | error e => rfl
      | ok b => simp only [pbind_ok]; exact ih b

/-- Mapping the result of an Except computation then binding. -/
theorem except_map_bind {ε α β γ : Type} (F : α → β) (m : Except ε α) (g : β → Except ε γ) :
    (Except.map F m) >>= g = m >>= (fun a => g (F a)) := by
  cases m <;> rfl

/-- Binding into pure is mapping. -/
theorem except_bind_pure {ε α β : Type} (m : Except ε α) (g : α → β) :
    (m >>= fun a => pure (g a)) = Except.map g m := by
  cases m <;> rfl

/-- A fold that inserts transformed vectors commutes with scaling the
masses of the folded distribution and of the accumulator. -/
theorem massFold_scale (p : ℚ) (f : KeyedVector → KeyedVector)
    (d : PDist KeyedVector) (acc : PDist KeyedVector) :
    (scaleDist p d).foldl (fun acc e => PDist.addProb acc (f e.fst) e.snd) (scaleDist p acc) =
      scaleDist p (d.foldl (fun acc e => PDist.addProb acc (f e.fst) e.snd) acc) := by
  induction d generalizing acc with
  | nil => rfl
  | cons e rest ih =>
      simp only [scaleDist, List.map_cons, List.foldl_cons]
      have h1 := addProb_scale p acc (f e.fst) e.snd
      simp only [scaleDist] at h1 ih ⊢
      rw [h1, ih]

/-- The expansion fold of one evaluation pass commutes with scaling when
the outer mass is scaled. -/
theorem prodFold_scale (p s : ℚ) (part : PDist KeyedVector) (acc : PDist KeyedVector) :
    part.foldl (fun a2 e2 => PDist.addProb a2 e2.fst (p * s * e2.snd)) (scaleDist p acc) =
      scaleDist p (part.foldl (fun a2 e2 => PDist.addProb a2 e2.fst (s * e2.snd)) acc) := by
  induction part generalizing acc with
  | nil => rfl
  | cons e2 rest ih =>
      simp only [List.foldl_cons]
      have h1 : p * s * e2.snd = p * (s * e2.snd) := by ring
      rw [h1, addProb_scale p acc e2.fst (s * e2.snd), ih]

/-- One pass of deltaState over a scaled distribution equals the scaled
pass. -/
theorem passFold_scale (w : PWorld) (actions : ActionsState) (ks : List Key) (p : ℚ)
    (old : PDist KeyedVector) (acc : PDist KeyedVector) :
    (scaleDist p old).foldlM (fun acc e => do
        let part ← w.multiDeltaVector actions e.fst ks
        pure (part.foldl (fun a2 e2 => PDist.addProb a2 e2.fst (e.snd * e2.snd)) acc))
      (scaleDist p acc) =
      Except.map (scaleDist p)
        (old.foldlM (fun acc e => do
            let part ← w.multiDeltaVector actions e.fst ks
            pure (part.foldl (fun a2 e2 => PDist.addProb a2 e2.fst (e.snd * e2.snd)) acc)) acc) := by
  induction old generalizing acc with
  | nil => rfl
  | cons e rest ih =>
      simp only [scaleDist, List.map_cons, List.foldlM_cons]
      cases hmv : w.multiDeltaVector actions e.fst ks with
      | error er => simp only [hmv, pbind_err]; rfl
      | ok part =>
          simp only [hmv, pbind_ok, ppure_eq]
          have hp := prodFold_scale p e.snd part acc
          simp only [scaleDist] at hp ih ⊢
          rw [hp]
          exact ih _

/-- deltaStatePass over a scaled distribution is the scaled pass. -/
theorem deltaStatePass_scale (w : PWorld) (actions : ActionsState) (ks : List Key)
    (p : ℚ) (old : PDist KeyedVector) :
    w.deltaStatePass actions ks (scaleDist p old) =
      Except.map (scaleDist p) (w.deltaStatePass actions ks old) := by
  unfold PWorld.deltaStatePass
  exact passFold_scale w actions ks p old []

/-- The deltaState loop over a scaled state yields the scaled state with
the same effect log. -/
theorem deltaStateFold_scale (w : PWorld) (actions : ActionsState) (keys : Option (List Key))
    (p : ℚ) (ev : List (List Key)) (old : PDist KeyedVector)
    (lastNew : Option (PDist KeyedVector)) (effects : List EffectItem) :
    ev.foldlM (w.deltaStateBody actions keys)
      (scaleDist p old, Option.map (scaleDist p) lastNew, effects) =
      Except.map (fun st => (scaleDist p st.1, Option.map (scaleDist p) st.2.1, st.2.2))
        (ev.foldlM (w.deltaStateBody actions keys) (old, lastNew, effects)) := by
  induction ev generalizing old lastNew effects with
  | nil => rfl
  | cons keySet rest ih =>
      simp only [List.foldlM_cons, PWorld.deltaStateBody]
      generalize (match keys with
        | none => keySet
        | some ks => keySet.filter (fun k => ks.contains k)) = ks2
      cases hk : ks2.isEmpty with
      | true =>
          simp only [hk, if_true, ppure_eq, pbind_ok]
          exact ih old lastNew effects
      | false =>
          simp only [hk, Bool.false_eq_true, if_false]
          cases hp : w.deltaStatePass actions ks2 old with
          | error er =>
              have hp2 := deltaStatePass_scale w actions ks2 p old
              rw [hp] at hp2
              simp only [hp, hp2, pbind_err, pmap_err]
          | ok n =>
              have hp2 := deltaStatePass_scale w actions ks2 p old
              rw [hp] at hp2
              simp only [hp, hp2, pmap_ok, pbind_ok, ppure_eq]
              exact ih n (some n) (effects ++ [EffectItem.mats [([], 1)]])

/-- deltaState over a scaled seed yields the scaled new distribution with
the same effect log. -/
theorem deltaState_scale (w : PWorld) (actions : ActionsState) (p : ℚ)
    (d : PDist KeyedVector) (keys : Option (List Key)) :
    w.deltaState actions (scaleDist p d) keys =
      Except.map (fun pr => (scaleDist p pr.fst, pr.snd)) (w.deltaState actions d keys) := by
  unfold PWorld.deltaState
  have h2 : List.foldlM (w.deltaStateBody actions keys)
      (scaleDist p d, (none : Option (PDist KeyedVector)), ([] : List EffectItem)) w.evaluation =
      Except.map (fun st => (scaleDist p st.1, Option.map (scaleDist p) st.2.1, st.2.2))
        (List.foldlM (w.deltaStateBody actions keys) (d, none, []) w.evaluation) :=
    deltaStateFold_scale w actions keys p w.evaluation d none []
  rw [h2]
  cases hf : w.evaluation.foldlM (w.deltaStateBody actions keys) (d, none, []) with
  | error er => rfl
  | ok st =>
      obtain ⟨o, ln, ef⟩ := st
      cases ln with
      | none => rfl
      | some n => rfl

/-- The turn overlay commutes with scaling the masses of the new
distribution. -/
theorem turnBlock_scale (dOpt : Option KeyedMatrix) (p : ℚ) (new : PDist KeyedVector)
    (eff : List EffectItem) :
    turnBlock dOpt (scaleDist p new) eff =
      (scaleDist p (turnBlock dOpt new eff).fst, (turnBlock dOpt new eff).snd) := by
  cases dOpt with
  | none => rfl
  | some delta =>
      by_cases hd : delta.isEmpty
      · simp only [turnBlock, hd, if_true]
      · simp only [turnBlock, hd, Bool.false_eq_true, if_false]
        have h := massFold_scale p (fun v => vupdate v (mulVec delta v)) new []
        simp only [scaleDist, List.map_nil] at h ⊢
        rw [h]

/-- A monadic fold whose body reads only the support vectors is unchanged
by scaling the masses. -/
theorem foldlM_fstOnly {β : Type} (g : β → KeyedVector → Except PyErr β) (p : ℚ)
    (d : PDist KeyedVector) (init : β) :
    (scaleDist p d).foldlM (fun b e => g b e.fst) init =
      d.foldlM (fun b e => g b e.fst) init := by
  induction d generalizing init with
  | nil => rfl
  | cons e rest ih =>
      simp only [scaleDist, List.map_cons, List.foldlM_cons]
      cases g init e.fst with
      | error er => rfl
      | ok b =>
          simp only [pbind_ok]
          simpa [scaleDist] using ih b

/-- The belief-delta accumulation ignores the masses of the new
distribution. -/
theorem beliefDelta_scale (w : PWorld) (actions : ActionsState) (vector : KeyedVector)
    (agentsModeled : List String) (p : ℚ) (new : PDist KeyedVector) :
    w.beliefDelta actions vector agentsModeled (scaleDist p new) =
      w.beliefDelta actions vector agentsModeled new := by
  unfold PWorld.beliefDelta
  exact foldlM_fstOnly
    (fun delta nv => agentsModeled.foldlM (w.beliefAgentStep actions vector nv) delta)
    p new _

/-- The inner matrix fold of the belief application commutes with scaling
the outer mass and the accumulated distribution. -/
theorem beliefInner_scale (delta : MatrixDistribution) (p m : ℚ) (v nv : KeyedVector)
    (acc : PDist KeyedVector) :
    delta.foldl (fun (pr : KeyedVector × PDist KeyedVector) (de : KeyedMatrix × ℚ) =>
        let nv2 := vupdate pr.fst (mulVec de.fst v)
        (nv2, PDist.addProb pr.snd nv2 (p * m * de.snd))) (nv, scaleDist p acc) =
      ((delta.foldl (fun (pr : KeyedVector × PDist KeyedVector) (de : KeyedMatrix × ℚ) =>
          let nv2 := vupdate pr.fst (mulVec de.fst v)
          (nv2, PDist.addProb pr.snd nv2 (m * de.snd))) (nv, acc)).fst,
       scaleDist p ((delta.foldl (fun (pr : KeyedVector × PDist KeyedVector) (de : KeyedMatrix × ℚ) =>
          let nv2 := vupdate pr.fst (mulVec de.fst v)
          (nv2, PDist.addProb pr.snd nv2 (m * de.snd))) (nv, acc)).snd)) := by
  induction delta generalizing nv acc with
  | nil => rfl
  | cons de rest ih =>
      simp only [List.foldl_cons]
      have h1 : p * m * de.snd = p * (m * de.snd) := by ring
      rw [h1, addProb_scale p acc (vupdate nv (mulVec de.fst v)) (m * de.snd)]
      exact ih (vupdate nv (mulVec de.fst v)) (PDist.addProb acc (vupdate nv (mulVec de.fst v)) (m * de.snd))

/-- The belief application commutes with scaling the masses of the new
distribution. -/
theorem beliefApply_scale (delta : MatrixDistribution) (p : ℚ) (new : PDist KeyedVector) :
    beliefApply delta (scaleDist p new) = scaleDist p (beliefApply delta new) := by
  suffices h : ∀ acc : PDist KeyedVector,
      (scaleDist p new).foldl (fun (acc : PDist KeyedVector) (e : KeyedVector × ℚ) =>
        (delta.foldl (fun (pr : KeyedVector × PDist KeyedVector) (de : KeyedMatrix × ℚ) =>
            let nv2 := vupdate pr.fst (mulVec de.fst e.fst)
            (nv2, PDist.addProb pr.snd nv2 (e.snd * de.snd))) (e.fst, acc)).snd) (scaleDist p acc) =
      scaleDist p (new.foldl (fun (acc : PDist KeyedVector) (e : KeyedVector × ℚ) =>
        (delta.foldl (fun (pr : KeyedVector × PDist KeyedVector) (de : KeyedMatrix × ℚ) =>
            let nv2 := vupdate pr.fst (mulVec de.fst e.fst)
            (nv2, PDist.addProb pr.snd nv2 (e.snd * de.snd))) (e.fst, acc)).snd) acc) by
    have h0 := h []
    simpa [beliefApply, scaleDist] using h0
  induction new with
  | nil => intro acc; rfl
  | cons e rest ih =>
      intro acc
      simp only [scaleDist, List.map_cons, List.foldl_cons]
      have hin := beliefInner_scale delta p e.snd e.fst e.fst acc
      simp only [scaleDist] at hin ih ⊢
      rw [hin]
      exact ih _

/-- effect is linear in its probability argument: running it with mass p
equals running it with mass one and scaling the resulting new
distribution; the effect log, the state-estimator entries and the
cleared-result cases are unchanged. -/
theorem effect_scale (w : PWorld) (actions : ActionsState) (vector : KeyedVector) (p : ℚ)
    (updateBeliefs : Bool) (keys : Option (List Key)) :
    w.effect actions vector p updateBeliefs keys =
      Except.map (Option.map (fun r => { r with new := scaleDist p r.new }))
        (w.effect actions vector 1 updateBeliefs keys) := by
  unfold PWorld.effect
  have hseed : ([(vector, p)] : PDist KeyedVector) = scaleDist p [(vector, 1)] := by
    simp [scaleDist]
  rw [hseed, deltaState_scale]
  cases hds : w.deltaState actions [(vector, 1)] keys with
  | error er => rfl
  | ok pr =>
      obtain ⟨n0, eff0⟩ := pr
      simp only [pmap_ok, pbind_ok]
      cases hdo : w.deltaOrder actions vector with
      | error er => rfl
      | ok dOpt =>
          simp only [pbind_ok]
          rw [turnBlock_scale]
          cases hub : updateBeliefs with
          | false => rfl
          | true =>
              simp only [Bool.not_true, Bool.false_eq_true, if_false]
              by_cases ham :
                (if ((w.agents.map Prod.fst).filter
                      (fun n => vhas vector (modelKey n) && keysAllow keys (modelKey n))).isEmpty
                 then ([] : List String)
                 else (w.agents.map Prod.fst).filter (fun n => vhas vector (modelKey n))).isEmpty
              · simp only [ham, if_true]
                rfl
              · simp only [ham, Bool.false_eq_true, if_false]
                rw [beliefDelta_scale]
                cases hbd : w.beliefDelta actions vector
                    (if ((w.agents.map Prod.fst).filter
                          (fun n => vhas vector (modelKey n) && keysAllow keys (modelKey n))).isEmpty
                     then ([] : List String)
                     else (w.agents.map Prod.fst).filter (fun n => vhas vector (modelKey n)))
                    (turnBlock dOpt n0 eff0).fst with
                | error er => rfl
                | ok delta =>
                    simp only [pbind_ok]
                    by_cases hde :
                      (delta.filter (fun (e : KeyedMatrix × ℚ) =>
                        (if ((w.agents.map Prod.fst).filter
                              (fun n => vhas vector (modelKey n) && keysAllow keys (modelKey n))).isEmpty
                         then ([] : List String)
                         else (w.agents.map Prod.fst).filter
                                (fun n => vhas vector (modelKey n))).all
                          (fun n => mhas e.fst (modelKey n)))).isEmpty
                    · simp only [hde, if_true]
                      rfl
                    · simp only [hde, Bool.false_eq_true, if_false]
                      rw [beliefApply_scale]
                      rfl

/-- The stochastic fold of stepFromState equals the spec-side fold that
runs effect at unit probability and scales the result by the action
probability. -/
theorem stochFold_eq (w : PWorld) (x : KeyedVector) (t2 : List (String × PyActVal)) (s : String)
    (ub : Bool) (keys : Option (List Key)) :
    ((getDistEntry t2 s).foldlM
      (fun (acc : Option (PDist KeyedVector × List EffectItem)) (ae : ActionSet × ℚ) => do
        let t3 := tset t2 s (.set ae.fst)
        let effR ← w.effect (.table t3) x ae.snd ub keys
        pure (match effR with
          | none => acc
          | some r =>
            match acc with
            | none => some (r.new, r.eff)
            | some pr => some (mergeAdd pr.fst r.new, pr.snd ++ r.eff))) none)
      = specStochastic w x t2 s ub keys := by
  unfold specStochastic
  refine foldlM_ext _ _ (fun acc ae => ?_) _ _
  show (w.effect (.table (tset t2 s (.set ae.fst))) x ae.snd ub keys >>= fun effR =>
    pure (match effR with
      | none => acc
      | some r =>
        match acc with
        | none => some (r.new, r.eff)
        | some pr => some (mergeAdd pr.fst r.new, pr.snd ++ r.eff))) = _
  rw [effect_scale w (.table (tset t2 s (.set ae.fst))) x ae.snd ub keys, except_map_bind]
  cases h : w.effect (.table (tset t2 s (.set ae.fst))) x 1 ub keys with
  | error e => rfl
  | ok o =>
      cases o with
      | none => rfl
      | some r => cases acc <;> rfl

/-- C6: for every step in which two or more acting agents return stochastic
(distribution-valued) decisions, stepFromState fails with an error naming
the stochastic agents in turn order; when exactly one actor s is
stochastic, the step enumerates the support of the decision of s, recursing
into effect for each action with the resulting new-state mass weighted by
the probability of that action (specStochastic), and merging the results. -/
theorem C6_stochastic_fanout :
    (∀ (w : PWorld) (x : KeyedVector) (t : List (String × PyActVal)) (horizon : Option ℤ)
        (tiebreak : Option String) (updateBeliefs : Bool) (keys : Option (List Key))
        (v : PyValue) (t2 : List (String × PyActVal)) (decs : List (String × Decision))
        (ss : List String),
        w.terminated (.vec x) = .ok v → pyTruthy v = false →
        w.fillActions x t horizon tiebreak = .ok (t2, decs) →
        stochasticOf (w.next x) t2 = ss → 2 ≤ ss.length →
        w.stepFromState x (.table t) horizon tiebreak updateBeliefs keys =
          .error (.notImplementedError ss)) ∧
    (∀ (w : PWorld) (x : KeyedVector) (t : List (String × PyActVal)) (horizon : Option ℤ)
        (tiebreak : Option String) (updateBeliefs : Bool) (keys : Option (List Key))
        (v : PyValue) (t2 : List (String × PyActVal)) (decs : List (String × Decision))
        (s : String),
        w.terminated (.vec x) = .ok v → pyTruthy v = false →
        w.fillActions x t horizon tiebreak = .ok (t2, decs) →
        stochasticOf (w.next x) t2 = [s] →
        w.stepFromState x (.table t) horizon tiebreak updateBeliefs keys =
          Except.map (mkOutcomeStoch x decs (.table t2))
            (specStochastic w x t2 s updateBeliefs keys)) := by
  constructor
  · intro w x t horizon tiebreak ub keys v t2 decs ss hterm hfalse hfill hst hlen
    simp only [PWorld.stepFromState, hterm, pbind_ok, hfalse, Bool.false_eq_true, if_false,
      hfill, hst]
    cases ss with
    | nil => simp at hlen
    | cons s1 rest =>
        cases rest with
        | nil => simp at hlen
        | cons s2 rest2 => rfl
  · intro w x t horizon tiebreak ub keys v t2 decs s hterm hfalse hfill hst
    simp only [PWorld.stepFromState, hterm, pbind_ok, hfalse, Bool.false_eq_true, if_false,
      hfill, hst]
    rw [stochFold_eq]
    exact except_bind_pure _ _

/-- C6 witness: in stochWorld both agents act and both return
distribution-valued decisions, so the step fails naming both agents. -/
theorem C6_stochastic_fanout_witness :
    stochWorld.stepFromState stochVec (.table []) none none true none =
      .error (.notImplementedError ["A", "B"]) :=
  C6_stochastic_fanout.1 stochWorld stochVec [] none none true none (.bool false)
    [("A", .dist [([atomA], 1)]), ("B", .dist [([atomB], 1)])]
    [("A", ⟨.dist [([atomA], 1)]⟩), ("B", ⟨.dist [([atomB], 1)]⟩)]
    ["A", "B"]
    (by norm_num +decide [stochWorld, stochVec])
    rfl
    (by norm_num +decide [stochWorld, stochVec, stochAgent])
    (by norm_num +decide [stochWorld, stochVec])
    (by norm_num)
